import Mathlib

/-!
Shallow embedding of the `firework` ray tracer (rendering core) over exact
rationals.  Floating-point values of the source are modelled as `ℚ`; the
handful of irrational operations (`sqrt`, `atan2`, `asin`, `log10`) are
abstracted as an oracle structure `RealOps` that the theorems quantify over,
since none of the verified claims depend on the numeric values those
operations return.  The pseudo-random stream is likewise modelled by passing
the drawn sample as an explicit argument.
-/

namespace Firework

/-- 3-vector over ℚ, modelling `ultraviolet::Vec3`. -/
structure Vec3 where
  x : ℚ
  y : ℚ
  z : ℚ
deriving DecidableEq, Repr

namespace Vec3

def add (a b : Vec3) : Vec3 := ⟨a.x + b.x, a.y + b.y, a.z + b.z⟩

def sub (a b : Vec3) : Vec3 := ⟨a.x - b.x, a.y - b.y, a.z - b.z⟩

/-- Componentwise (Hadamard) product, as `ultraviolet`'s `Vec3 * Vec3`. -/
def mul (a b : Vec3) : Vec3 := ⟨a.x * b.x, a.y * b.y, a.z * b.z⟩

def smul (c : ℚ) (a : Vec3) : Vec3 := ⟨c * a.x, c * a.y, c * a.z⟩

def neg (a : Vec3) : Vec3 := ⟨-a.x, -a.y, -a.z⟩

def dot (a b : Vec3) : ℚ := a.x * b.x + a.y * b.y + a.z * b.z

def cross (a b : Vec3) : Vec3 :=
  ⟨a.y * b.z - a.z * b.y, a.z * b.x - a.x * b.z, a.x * b.y - a.y * b.x⟩

def zero : Vec3 := ⟨0, 0, 0⟩

def one : Vec3 := ⟨1, 1, 1⟩

def unit_y : Vec3 := ⟨0, 1, 0⟩

/-- `Vec3::min_by_component`. -/
def min_by_component (a b : Vec3) : Vec3 :=
  ⟨min a.x b.x, min a.y b.y, min a.z b.z⟩

/-- `Vec3::max_by_component`. -/
def max_by_component (a b : Vec3) : Vec3 :=
  ⟨max a.x b.x, max a.y b.y, max a.z b.z⟩

/-- Componentwise `≤` on vectors. -/
def le (a b : Vec3) : Prop := a.x ≤ b.x ∧ a.y ≤ b.y ∧ a.z ≤ b.z

instance (a b : Vec3) : Decidable (le a b) := by unfold le; infer_instance

end Vec3

/-- 2-vector over ℚ, modelling `ultraviolet::Vec2`. -/
structure Vec2 where
  x : ℚ
  y : ℚ
deriving DecidableEq, Repr

/-- Oracle for the irrational real operations used by the source
(`f32::sqrt`, `f32::atan2`, `f32::asin`, `f32::log10`).  Claims are proved
for every oracle, so nothing is assumed about the values beyond explicitly
stated hypotheses. -/
structure RealOps where
  sqrt : ℚ → ℚ
  atan2 : ℚ → ℚ → ℚ
  asin : ℚ → ℚ
  log10 : ℚ → ℚ
  pi : ℚ

/-- `Ray` (src/ray.rs): origin and (not necessarily unit) direction. -/
structure Ray where
  origin : Vec3
  dir : Vec3
deriving DecidableEq, Repr

/-- `Ray::point`: `origin + t * dir`. -/
def Ray.point (r : Ray) (t : ℚ) : Vec3 := r.origin.add (Vec3.smul t r.dir)

/-- `AABB` (src/aabb.rs): axis-aligned bounding box. -/
structure AABB where
  min : Vec3
  max : Vec3
deriving DecidableEq, Repr

namespace AABB

/-- `AABB::from_two_points`: box containing two arbitrary points. -/
def from_two_points (p0 p1 : Vec3) : AABB :=
  ⟨p0.min_by_component p1, p0.max_by_component p1⟩

/-- `AABB::expand`: union of two boxes. -/
def expand (a b : AABB) : AABB :=
  ⟨a.min.min_by_component b.min, a.max.max_by_component b.max⟩

/-- `AABB::center`: `0.5 * min + 0.5 * max`. -/
def center (a : AABB) : Vec3 :=
  (Vec3.smul (1/2) a.min).add (Vec3.smul (1/2) a.max)

/-- One axis of the slab test in `AABB::hit`: computes the slab interval,
swaps on negative inverse direction, intersects with the running interval
and fails when the result is empty.  Returns the updated interval. -/
def slab1 (mn mx o dr tmin tmax : ℚ) : Option (ℚ × ℚ) :=
  let inv := 1 / dr
  let t0 := (mn - o) * inv
  let t1 := (mx - o) * inv
  let p := if inv < 0 then (t1, t0) else (t0, t1)
  let tmin' := Max.max tmin p.1
  let tmax' := Min.min tmax p.2
  if tmax' > tmin' then some (tmin', tmax') else none

/-- `AABB::hit`: the three slab tests run in sequence with a shared running
interval, short-circuiting on the first empty intersection. -/
def hit (bb : AABB) (r : Ray) (tmin tmax : ℚ) : Bool :=
  match slab1 bb.min.x bb.max.x r.origin.x r.dir.x tmin tmax with
  | none => false
  | some (tmin, tmax) =>
    match slab1 bb.min.y bb.max.y r.origin.y r.dir.y tmin tmax with
    | none => false
    | some (tmin, tmax) =>
      (slab1 bb.min.z bb.max.z r.origin.z r.dir.z tmin tmax).isSome

/-- Box inclusion, componentwise: `inner` fits inside `outer`. -/
def boxLE (inner outer : AABB) : Prop :=
  outer.min.le inner.min ∧ inner.max.le outer.max

instance (a b : AABB) : Decidable (boxLE a b) := by unfold boxLE; infer_instance

end AABB

/-! ## Hittables, the linear scan, and the BVH (src/render.rs, src/bvh.rs) -/

/-- `RaycastHit` (src/render.rs).  The material reference is modelled as an
index (the `objects/` variants store a `MaterialIdx`; the `&dyn Material`
reference of src/render.rs is an opaque handle resolved through a table). -/
structure RaycastHit where
  t : ℚ
  point : Vec3
  normal : Vec3
  material : ℕ
  uv : Vec2
deriving DecidableEq, Repr

/-- An abstract `dyn Hitable` (src/render.rs): its `hit` method and its
`bounding_box`.  The `&mut LcRng` argument is threaded through `hit`
unchanged by the aggregate code, so it is folded into the pure function. -/
structure Hittable where
  hitAt : Ray → ℚ → ℚ → Option RaycastHit
  box : Option AABB

/-- The sort key of the comparator in `BVHNode::new_helper` (src/bvh.rs):
at `depth % 3 = 0` the box's `min.x`, at `1` its `min.y`, and at `2` again
its `min.x` (the third match arm of the source compares `min.x`, not
`min.z`).  The comparator calls `.expect` on the bounding box; the `getD`
default is never consulted because construction fails first on a missing
box (see `buildFuel`). -/
def codeSortKey (depth : ℕ) (h : Hittable) : ℚ :=
  (h.box.map (fun bb =>
    match depth % 3 with
    | 0 => bb.min.x
    | 1 => bb.min.y
    | _ => bb.min.x)).getD 0

/-- The comparator relation used at a given depth. -/
def rCode (depth : ℕ) (a b : Hittable) : Prop :=
  codeSortKey depth a ≤ codeSortKey depth b

instance (depth : ℕ) : DecidableRel (rCode depth) := fun _ _ => by
  unfold rCode; infer_instance

/-- The sorting pass of `BVHNode::new_helper`, modelled by a comparison
sort with the source's comparator (`sort_unstable_by` is an unspecified
comparison sort; any sort agreeing with the comparator is a faithful
model up to tie order). -/
def sortCode (depth : ℕ) (l : List Hittable) : List Hittable :=
  List.insertionSort (rCode depth) l

/-- Modelled from the spec: the sort key the specification describes —
the center of the bounding box projected on axis `depth % 3`
(x at 0, y at 1, z at 2). -/
def specSortKey (depth : ℕ) (h : Hittable) : ℚ :=
  (h.box.map (fun bb =>
    match depth % 3 with
    | 0 => bb.center.x
    | 1 => bb.center.y
    | _ => bb.center.z)).getD 0

/-- Modelled from the spec: the relation for `specSortKey`. -/
def rSpec (depth : ℕ) (a b : Hittable) : Prop :=
  specSortKey depth a ≤ specSortKey depth b

instance (depth : ℕ) : DecidableRel (rSpec depth) := fun _ _ => by
  unfold rSpec; infer_instance

/-- Modelled from the spec: the sorting pass as the specification words it. -/
def sortSpec (depth : ℕ) (l : List Hittable) : List Hittable :=
  List.insertionSort (rSpec depth) l

/-- `BVHNode` (src/bvh.rs): a leaf, a double-leaf, or a branch, each
carrying its cached `AABB`. -/
inductive BVHTree where
  | leaf (aabb : AABB) (a : Hittable)
  | double (aabb : AABB) (a b : Hittable)
  | branch (aabb : AABB) (lt rt : BVHTree)

/-- The cached box of a node (`BVHNode::bounding_box` always returns it). -/
def BVHTree.aabbOf : BVHTree → AABB
  | .leaf bb _ => bb
  | .double bb _ _ => bb
  | .branch bb _ _ => bb

/-- The hittables stored at the leaves, in tree order. -/
def BVHTree.leavesOf : BVHTree → List Hittable
  | .leaf _ a => [a]
  | .double _ a b => [a, b]
  | .branch _ lt rt => lt.leavesOf ++ rt.leavesOf

/-- Failure modes of BVH construction: a panicking `.expect` on a missing
bounding box, or exhaustion of the recursion fuel. -/
inductive BuildFail where
  | missingBox
  | fuelOut
deriving DecidableEq, Repr

/-- `BVHNode::new_helper` (src/bvh.rs), with explicit recursion fuel.
The source first sorts the slice (the comparator `.expect`s every
element's bounding box as soon as the slice has at least two elements),
then matches: one element gives a leaf, two give a double-leaf, and
otherwise the slice is split at `len / 2` and both halves are built at
`depth + 1`.  An empty slice falls into the split arm with both halves
empty, so the source recurses forever; in the model the fuel runs out. -/
def buildFuel (fuel : ℕ) (l : List Hittable) (depth : ℕ) :
    Except BuildFail BVHTree :=
  match fuel with
  | 0 => .error .fuelOut
  | fuel + 1 =>
    if 2 ≤ l.length ∧ ¬ (∀ e ∈ l, e.box.isSome) then .error .missingBox
    else
      match sortCode depth l with
      | [] => buildFuel fuel [] (depth + 1)
      | [a] =>
        match a.box with
        | some bb => .ok (.leaf bb a)
        | none => .error .missingBox
      | [a, b] =>
        match a.box, b.box with
        | some ba, some bb => .ok (.double (AABB.expand ba bb) a b)
        | _, _ => .error .missingBox
      | a :: b :: c :: rest =>
        let ls := a :: b :: c :: rest
        let k := ls.length / 2
        match buildFuel fuel (ls.take k) (depth + 1),
              buildFuel fuel (ls.drop k) (depth + 1) with
        | .ok lt, .ok rt => .ok (.branch (AABB.expand lt.aabbOf rt.aabbOf) lt rt)
        | .error e, _ => .error e
        | _, .error e => .error e

/-- `BVHNode::new` builds from the whole list at depth 0; the list's length
is sufficient fuel for every terminating run (see `buildFuel_isOk`). -/
def bvhNew (l : List Hittable) : Except BuildFail BVHTree :=
  buildFuel l.length l 0

/-- `<BVHNode as Hitable>::hit` (src/bvh.rs): test the node box; at a leaf
delegate; at a double-leaf or branch probe both children with the *same*
interval and keep the smaller-`t` hit. -/
def bvhHit : BVHTree → Ray → ℚ → ℚ → Option RaycastHit
  | .leaf bb a, r, tmin, tmax =>
    if bb.hit r tmin tmax then a.hitAt r tmin tmax else none
  | .double bb a b, r, tmin, tmax =>
    if bb.hit r tmin tmax then
      match a.hitAt r tmin tmax, b.hitAt r tmin tmax with
      | none, none => none
      | some h, none => some h
      | none, some h => some h
      | some lh, some rh => if lh.t < rh.t then some lh else some rh
    else none
  | .branch bb lt rt, r, tmin, tmax =>
    if bb.hit r tmin tmax then
      match bvhHit lt r tmin tmax, bvhHit rt r tmin tmax with
      | none, none => none
      | some h, none => some h
      | none, some h => some h
      | some lh, some rh => if lh.t < rh.t then some lh else some rh
    else none

/-- The loop body of `HitableList::hit` (src/render.rs): scan the list,
shrinking the upper bound to each found hit's `t` and keeping the last
hit found. -/
def scanAux : List Hittable → Ray → ℚ → ℚ → Option RaycastHit →
    Option RaycastHit
  | [], _, _, _, best => best
  | e :: rest, r, tmin, closest, best =>
    match e.hitAt r tmin closest with
    | some h => scanAux rest r tmin h.t (some h)
    | none => scanAux rest r tmin closest best

/-- `HitableList::hit` (src/render.rs): linear scan over the aggregate. -/
def hitableListHit (l : List Hittable) (r : Ray) (tmin tmax : ℚ) :
    Option RaycastHit :=
  scanAux l r tmin tmax none

/-- Structural invariant of built trees: every cached box is the box of the
leaf (resp. the `expand` of the children's boxes). -/
def TreeWF : BVHTree → Prop
  | .leaf bb a => a.box = some bb
  | .double bb a b =>
    ∃ ba bbx, a.box = some ba ∧ b.box = some bbx ∧ bb = AABB.expand ba bbx
  | .branch bb lt rt =>
    bb = AABB.expand lt.aabbOf rt.aabbOf ∧ TreeWF lt ∧ TreeWF rt

/-- A hittable is box-correct when its bounding box is present and passes
the slab test for every ray/interval on which `hit` reports a hit.  This is
the contract the spec's invariant 4 presumes of aggregate members. -/
def HitBoxCorrect (e : Hittable) : Prop :=
  ∀ (r : Ray) (tmin tmax : ℚ) (h : RaycastHit),
    e.hitAt r tmin tmax = some h →
    ∃ bb, e.box = some bb ∧ bb.hit r tmin tmax = true

/-- A hittable is widening-monotone when enlarging the upper bound of the
query interval cannot turn a hit into a miss (every primitive of the source
satisfies this: a root accepted in a narrower interval is still accepted,
or an earlier root takes its place). -/
def HitWiden (e : Hittable) : Prop :=
  ∀ (r : Ray) (tmin t t' : ℚ), t ≤ t' →
    (e.hitAt r tmin t).isSome → (e.hitAt r tmin t').isSome

/-! ## Primitives (src/objects/) -/

/-- `solve_quadratic` (src/objects.rs): root pair of `ax² + bx + c`,
`sqrt` taken from the oracle. -/
def solve_quadratic (ops : RealOps) (a b c : ℚ) : Option ℚ × Option ℚ :=
  let disc := b * b - 4 * a * c
  if disc < 0 then (none, none)
  else if disc = 0 then (some (-b / (2 * a)), none)
  else (some ((-b - ops.sqrt disc) / (2 * a)),
        some ((-b + ops.sqrt disc) / (2 * a)))

/-- `sphere_uv` (src/objects/sphere.rs). -/
def sphere_uv (ops : RealOps) (p : Vec3) : Vec2 :=
  let phi := ops.atan2 p.z p.x
  let theta := ops.asin p.y
  ⟨1 - (phi + ops.pi) / (2 * ops.pi), (theta + ops.pi / 2) / ops.pi⟩

namespace Sphere

/-- `Sphere::hit` (src/objects/sphere.rs): quadratic in the local frame,
smaller root preferred, each root accepted only strictly inside
`(t_min, t_max)`. -/
def hit (ops : RealOps) (radius : ℚ) (material : ℕ) (r : Ray)
    (t_min t_max : ℚ) : Option RaycastHit :=
  let o := r.origin
  let d := r.dir
  let a := d.dot d
  let b := 2 * o.dot d
  let c := o.dot o - radius * radius
  match solve_quadratic ops a b c with
  | (some t1, t2) =>
    let tsel : Option ℚ :=
      if t1 < t_max ∧ t1 > t_min then some t1
      else
        match t2 with
        | some t2v => if t2v < t_max ∧ t2v > t_min then some t2v else none
        | none => none
    match tsel with
    | some t =>
      let point := r.point t
      some ⟨t, point, Vec3.smul (1 / radius) point, material,
        sphere_uv ops (Vec3.smul (1 / radius) point)⟩
    | none => none
  | (none, _) => none

end Sphere

/-- `Axis` (src/util.rs). -/
inductive Axis where
  | X
  | Y
  | Z
deriving DecidableEq, Repr

/-- `Axis::other` (src/util.rs).  The source panics when both axes agree;
the rect instantiations only use distinct axes, so that arm is modelled by
an arbitrary value. -/
def Axis.other : Axis → Axis → Axis
  | .X, .Y => .Z
  | .Y, .X => .Z
  | .Y, .Z => .X
  | .Z, .Y => .X
  | .X, .Z => .Y
  | .Z, .X => .Y
  | _, _ => .X

/-- `Axis::unit_vec` (src/util.rs). -/
def Axis.unit_vec : Axis → Vec3
  | .X => ⟨1, 0, 0⟩
  | .Y => ⟨0, 1, 0⟩
  | .Z => ⟨0, 0, 1⟩

/-- Component of a vector selected by an `Axis` (the `vec[axis as usize]`
indexing of the source). -/
def Vec3.get (v : Vec3) : Axis → ℚ
  | .X => v.x
  | .Y => v.y
  | .Z => v.z

/-- Component of a vector selected by a numeric index 0/1/2 (the
`vec[k]` indexing in the triangle kernel; indices are always below 3). -/
def Vec3.nth (v : Vec3) : ℕ → ℚ
  | 0 => v.x
  | 1 => v.y
  | _ => v.z

namespace AARect

/-- `AARect::<A1, A2>::hit` (src/objects/rect.rs): plane solve on the third
axis, rejection outside `[min, max]` on the two parameterizing axes. -/
def hit (a1 a2 : Axis) (rmin rmax : Vec2) (k : ℚ) (flip_normal : Bool)
    (material : ℕ) (r : Ray) (t_min t_max : ℚ) : Option RaycastHit :=
  let oth := Axis.other a1 a2
  let t := (k - r.origin.get oth) / r.dir.get oth
  if t < t_min ∨ t > t_max then none
  else
    let point := r.point t
    if point.get a1 < rmin.x ∨ point.get a1 > rmax.x ∨
        point.get a2 < rmin.y ∨ point.get a2 > rmax.y then none
    else
      let normal := oth.unit_vec
      some ⟨t, point, if flip_normal then normal.neg else normal, material,
        ⟨(point.get a1 - rmin.x) / (rmax.x - rmin.x),
         (point.get a2 - rmin.y) / (rmax.y - rmin.y)⟩⟩

end AARect

namespace Cylinder

/-- The `phi` computed inside `Cylinder::hit`'s `check_solution` closure:
`atan2` lifted into `[0, 2π)` by adding `PI * 2` when negative. -/
def phiAt (ops : RealOps) (point : Vec3) : ℚ :=
  if ops.atan2 point.z point.x < 0 then
    ops.atan2 point.z point.x + ops.pi * 2
  else ops.atan2 point.z point.x

/-- The `check_solution` closure of `Cylinder::hit` (src/objects/cylinder.rs),
lifted to a named function: reject outside the interval, then require
`0 < y < height` and `phi < max_phi`. -/
def check_solution (ops : RealOps) (radius height max_phi : ℚ)
    (material : ℕ) (r : Ray) (t_min t_max t : ℚ) : Option RaycastHit :=
  if t > t_max ∨ t < t_min then none
  else
    let point := r.point t
    if point.y > 0 ∧ point.y < height ∧ phiAt ops point < max_phi then
      some ⟨t, point, ⟨point.x / radius, 0, point.z / radius⟩,
        material, ⟨phiAt ops point / max_phi, point.y / height⟩⟩
    else none

/-- `Cylinder::hit` (src/objects/cylinder.rs): quadratic in the xz plane,
each candidate root checked by `check_solution`. -/
def hit (ops : RealOps) (radius height max_phi : ℚ) (material : ℕ)
    (r : Ray) (t_min t_max : ℚ) : Option RaycastHit :=
  let o := r.origin
  let d := r.dir
  let a := d.x * d.x + d.z * d.z
  let b := 2 * (d.x * o.x + d.z * o.z)
  let c := o.x * o.x + o.z * o.z - radius * radius
  let disc := b * b - 4 * a * c
  if disc > 0 then
    match solve_quadratic ops a b c with
    | (some t1, t2) =>
      match check_solution ops radius height max_phi material r t_min t_max t1 with
      | some h => some h
      | none =>
        match t2 with
        | some t2v => check_solution ops radius height max_phi material r t_min t_max t2v
        | none => none
    | (none, _) => none
  else none

end Cylinder

namespace Disk

/-- The lifted `phi` of `Disk::hit`: `atan2` plus `2 * PI` when negative. -/
def phiAt (ops : RealOps) (point : Vec3) : ℚ :=
  if ops.atan2 point.z point.x < 0 then
    ops.atan2 point.z point.x + 2 * ops.pi
  else ops.atan2 point.z point.x

/-- `Disk::hit` (src/objects/disk.rs): XZ-plane solve, annulus and sector
rejection. -/
def hit (ops : RealOps) (radius phi_max inner_radius : ℚ) (material : ℕ)
    (r : Ray) (t_min t_max : ℚ) : Option RaycastHit :=
  if r.dir.y = 0 then none
  else
    let t := -r.origin.y / r.dir.y
    if t < t_min ∨ t > t_max then none
    else
      let point := r.point t
      let dist2 := point.x * point.x + point.z * point.z
      if dist2 > radius * radius ∨ dist2 < inner_radius * inner_radius then
        none
      else
        if phiAt ops point > phi_max then none
        else
          let dist := ops.sqrt dist2
          some ⟨t, point, ⟨0, 1, 0⟩, material,
            ⟨phiAt ops point / phi_max,
             1 - (dist - inner_radius) / (radius - inner_radius)⟩⟩

end Disk

/-! ## Triangle meshes (src/objects/mesh.rs) -/

/-- Componentwise operations on `Vec2`. -/
def Vec2.add (a b : Vec2) : Vec2 := ⟨a.x + b.x, a.y + b.y⟩

def Vec2.smul (c : ℚ) (a : Vec2) : Vec2 := ⟨c * a.x, c * a.y⟩

/-- Normalization `v.normalized()`, magnitude through the oracle. -/
def Vec3.normalizedW (ops : RealOps) (v : Vec3) : Vec3 :=
  Vec3.smul (1 / ops.sqrt (v.dot v)) v

/-- `TriangleMesh` (src/objects/mesh.rs). -/
structure TriangleMesh where
  indicies : List ℕ
  verts : List Vec3
  normals : Option (List Vec3)
  uvs : Option (List Vec2)
  material : ℕ

/-- The `normals.len() != verts.len()` check of `TriangleMesh::new`. -/
def normalsLenMismatch (normals : Option (List Vec3)) (n : ℕ) : Bool :=
  match normals with
  | some ns => ns.length != n
  | none => false

/-- The `uvs.len() != verts.len()` check of `TriangleMesh::new`. -/
def uvsLenMismatch (uvs : Option (List Vec2)) (n : ℕ) : Bool :=
  match uvs with
  | some us => us.length != n
  | none => false

/-- `TriangleMesh::new` (src/objects/mesh.rs): rejects a present normals or
uvs array whose length differs from the vertex count; everything else is
accepted. -/
def TriangleMesh.new (verts : List Vec3) (indicies : List ℕ)
    (normals : Option (List Vec3)) (uvs : Option (List Vec2))
    (material : ℕ) : Except String TriangleMesh :=
  let num_verts := verts.length
  if normalsLenMismatch normals num_verts then
    .error "TriangleMesh new -- normals len must equal verts len"
  else if uvsLenMismatch uvs num_verts then
    .error "TriangleMesh new -- uvs len must equal verts len"
  else .ok ⟨indicies, verts, normals, uvs, material⟩

/-- `TriangleMesh::get_triangle_verts`.  Out-of-range indexing panics in
the source; it is modelled with a zero default, which no verified claim
depends on. -/
def TriangleMesh.get_triangle_verts (m : TriangleMesh) (idx : ℕ) :
    Vec3 × Vec3 × Vec3 :=
  let base := 3 * idx
  (m.verts.getD (m.indicies.getD base 0) Vec3.zero,
   m.verts.getD (m.indicies.getD (base + 1) 0) Vec3.zero,
   m.verts.getD (m.indicies.getD (base + 2) 0) Vec3.zero)

/-- `TriangleMesh::get_triangle_normals`. -/
def TriangleMesh.get_triangle_normals (m : TriangleMesh) (idx : ℕ) :
    Option (Vec3 × Vec3 × Vec3) :=
  m.normals.map fun ns =>
    let base := 3 * idx
    (ns.getD (m.indicies.getD base 0) Vec3.zero,
     ns.getD (m.indicies.getD (base + 1) 0) Vec3.zero,
     ns.getD (m.indicies.getD (base + 2) 0) Vec3.zero)

/-- `TriangleMesh::get_triangle_uvs`. -/
def TriangleMesh.get_triangle_uvs (m : TriangleMesh) (idx : ℕ) :
    Vec2 × Vec2 × Vec2 :=
  match m.uvs with
  | some us =>
    let base := 3 * idx
    (us.getD (m.indicies.getD base 0) ⟨0, 0⟩,
     us.getD (m.indicies.getD (base + 1) 0) ⟨0, 0⟩,
     us.getD (m.indicies.getD (base + 2) 0) ⟨0, 0⟩)
  | none => (⟨0, 0⟩, ⟨1, 0⟩, ⟨0, 1⟩)

/-- `max_component_idx` (src/util.rs). -/
def max_component_idx (v : Vec3) : ℕ :=
  if v.x > v.y then (if v.z > v.x then 2 else 0)
  else (if v.z > v.y then 2 else 1)

namespace Triangle

/-- The tail of `Triangle::hit` after the edge-sign test: the determinant
check, the scaled-`t` validation against `[t_min·det, t_max·det]` with
sign handling, and the barycentric interpolation (`p_i·z` arrive already
multiplied by the shear `sz`, as the source does in place). -/
def finish (ops : RealOps) (mesh : TriangleMesh) (index : ℕ)
    (t_min t_max e0 e1 e2 p0tz p1tz p2tz : ℚ) (p0 p1 p2 : Vec3) :
    Option RaycastHit :=
  let det := e0 + e1 + e2
  if det = 0 then none
  else
    let t_scaled := e0 * p0tz + e1 * p1tz + e2 * p2tz
    if det < 0 ∧ (t_scaled ≥ t_min * det ∨ t_scaled < t_max * det) then
      none
    else if det > 0 ∧ (t_scaled ≤ t_min * det ∨ t_scaled > t_max * det) then
      none
    else
      let inv_det := 1 / det
      let b0 := e0 * inv_det
      let b1 := e1 * inv_det
      let b2 := e2 * inv_det
      let t := t_scaled * inv_det
      let point := (Vec3.smul b0 p0).add ((Vec3.smul b1 p1).add
        (Vec3.smul b2 p2))
      let uvs := mesh.get_triangle_uvs index
      let uv := (Vec2.smul b0 uvs.1).add ((Vec2.smul b1 uvs.2.1).add
        (Vec2.smul b2 uvs.2.2))
      let normal :=
        match mesh.get_triangle_normals index with
        | some ns =>
          Vec3.normalizedW ops ((Vec3.smul b0 ns.1).add
            ((Vec3.smul b1 ns.2.1).add (Vec3.smul b2 ns.2.2)))
        | none => (p0.sub p2).cross (p1.sub p2)
      some ⟨t, point, normal, mesh.material, uv⟩

/-- `Triangle::hit` (src/objects/mesh.rs): the PBRT watertight kernel —
translate by `-origin`, permute so the largest direction component becomes
z, shear, signed edge functions, then `finish`. -/
def hit (ops : RealOps) (mesh : TriangleMesh) (index : ℕ) (r : Ray)
    (t_min t_max : ℚ) : Option RaycastHit :=
  let pv := mesh.get_triangle_verts index
  let p0 := pv.1
  let p1 := pv.2.1
  let p2 := pv.2.2
  let p0t := p0.sub r.origin
  let p1t := p1.sub r.origin
  let p2t := p2.sub r.origin
  let d0 := r.dir
  let kz := max_component_idx d0
  let kx := (kz + 1) % 3
  let ky := (kx + 1) % 3
  let d : Vec3 := ⟨d0.nth kx, d0.nth ky, d0.nth kz⟩
  let p0t : Vec3 := ⟨p0t.nth kx, p0t.nth ky, p0t.nth kz⟩
  let p1t : Vec3 := ⟨p1t.nth kx, p1t.nth ky, p1t.nth kz⟩
  let p2t : Vec3 := ⟨p2t.nth kx, p2t.nth ky, p2t.nth kz⟩
  let sx := -d.x / d.z
  let sy := -d.y / d.z
  let sz := 1 / d.z
  let p0t : Vec3 := ⟨p0t.x + sx * p0t.z, p0t.y + sy * p0t.z, p0t.z⟩
  let p1t : Vec3 := ⟨p1t.x + sx * p1t.z, p1t.y + sy * p1t.z, p1t.z⟩
  let p2t : Vec3 := ⟨p2t.x + sx * p2t.z, p2t.y + sy * p2t.z, p2t.z⟩
  let e0 := p1t.x * p2t.y - p1t.y * p2t.x
  let e1 := p2t.x * p0t.y - p2t.y * p0t.x
  let e2 := p0t.x * p1t.y - p0t.y * p1t.x
  if (e0 < 0 ∨ e1 < 0 ∨ e2 < 0) ∧ (e0 > 0 ∨ e1 > 0 ∨ e2 > 0) then none
  else
    finish ops mesh index t_min t_max e0 e1 e2 (p0t.z * sz) (p1t.z * sz)
      (p2t.z * sz) p0 p1 p2

end Triangle

/-! ## Constant medium (src/objects/volume.rs) -/

/-- `std::f32::MAX`, exactly. -/
def f32_max : ℚ := 2 ^ 128 - 2 ^ 104

namespace ConstantMedium

/-- `ConstantMedium::hit` (src/objects/volume.rs).  `u` is the
`rand.rand_f32()` draw; the entry probe runs over `(-MAX, MAX)` and the
exit probe over `(t1 + 0.0001, MAX)`. -/
def hit (ops : RealOps) (obj : Hittable) (density : ℚ) (material : ℕ)
    (u : ℚ) (r : Ray) (t_min t_max : ℚ) : Option RaycastHit :=
  match obj.hitAt r (-f32_max) f32_max with
  | none => none
  | some rec1 =>
    match obj.hitAt r (rec1.t + 1 / 10000) f32_max with
    | none => none
    | some rec2 =>
      let t1 := Max.max rec1.t t_min
      let t2 := Min.min rec2.t t_max
      if t1 ≥ t2 then none
      else
        let t1 := Max.max t1 0
        let mag := ops.sqrt (r.dir.dot r.dir)
        let dist_inside_boundary := (t2 - t1) * mag
        let hit_distance := -(1 / density) * ops.log10 u
        if hit_distance < dist_inside_boundary then
          let t := t1 + hit_distance / mag
          some ⟨t, r.point t, Vec3.unit_y, material, ⟨0, 0⟩⟩
        else none

/-- Modelled from the spec (C5's wording): all three clamps are applied
first — `t1 = max(t1, t_min)`, `t2 = min(t2, t_max)`, `t1 = max(t1, 0)` —
and only then is the `t1 ≥ t2` miss test made; the rest is identical. -/
def hitSpec (ops : RealOps) (obj : Hittable) (density : ℚ) (material : ℕ)
    (u : ℚ) (r : Ray) (t_min t_max : ℚ) : Option RaycastHit :=
  match obj.hitAt r (-f32_max) f32_max with
  | none => none
  | some rec1 =>
    match obj.hitAt r (rec1.t + 1 / 10000) f32_max with
    | none => none
    | some rec2 =>
      let t1 := Max.max rec1.t t_min
      let t2 := Min.min rec2.t t_max
      let t1 := Max.max t1 0
      if t1 ≥ t2 then none
      else
        let mag := ops.sqrt (r.dir.dot r.dir)
        let dist_inside_boundary := (t2 - t1) * mag
        let hit_distance := -(1 / density) * ops.log10 u
        if hit_distance < dist_inside_boundary then
          let t := t1 + hit_distance / mag
          some ⟨t, r.point t, Vec3.unit_y, material, ⟨0, 0⟩⟩
        else none

end ConstantMedium

/-! ## Materials (src/material.rs, src/util.rs) -/

/-- `ScatterResult` (src/material.rs). -/
structure ScatterResult where
  attenuation : Vec3
  scattered : Ray

/-- `reflect` (src/util.rs). -/
def reflect (v n : Vec3) : Vec3 := v.sub (Vec3.smul (2 * v.dot n) n)

/-- `refract` (src/util.rs). -/
def refract (ops : RealOps) (v n : Vec3) (ni_over_nt : ℚ) : Option Vec3 :=
  let uv := Vec3.normalizedW ops v
  let dt := uv.dot n
  let disc := 1 - ni_over_nt * ni_over_nt * (1 - dt * dt)
  if disc > 0 then
    some ((Vec3.smul ni_over_nt (uv.sub (Vec3.smul dt n))).sub
      (Vec3.smul (ops.sqrt disc) n))
  else none

/-- `schlick` (src/util.rs); `powf(5.)` on the exact argument is `^ 5`. -/
def schlick (cosine ref_idx : ℚ) : ℚ :=
  let r0 := (1 - ref_idx) / (1 + ref_idx)
  let r0 := r0 * r0
  r0 + (1 - r0) * (1 - cosine) ^ 5

namespace DielectricMat

/-- `DielectricMat::scatter` (src/material.rs).  `u` is the
`rand.rand_f32()` draw deciding reflect vs. refract. -/
def scatter (ops : RealOps) (ref_idx : ℚ) (u : ℚ) (r_in : Ray)
    (hit : RaycastHit) : Option ScatterResult :=
  let reflected := reflect r_in.dir hit.normal
  let trio :=
    if r_in.dir.dot hit.normal > 0 then
      (hit.normal.neg, ref_idx,
        ref_idx * (r_in.dir.dot hit.normal) / ops.sqrt (r_in.dir.dot r_in.dir))
    else
      (hit.normal, 1 / ref_idx,
        -(r_in.dir.dot hit.normal) / ops.sqrt (r_in.dir.dot r_in.dir))
  match refract ops r_in.dir trio.1 trio.2.1 with
  | some refracted =>
    if u > schlick trio.2.2 ref_idx then
      some ⟨Vec3.one, ⟨hit.point, refracted⟩⟩
    else some ⟨Vec3.one, ⟨hit.point, reflected⟩⟩
  | none => some ⟨Vec3.one, ⟨hit.point, reflected⟩⟩

end DielectricMat

/-! ## The path integrator (src/render.rs) and environments
(src/environment.rs) -/

/-- An abstract `dyn Material` for the integrator: `emit` and `scatter`
(the RNG stream is folded into the pure scatter function). -/
structure MaterialM where
  emitF : Vec2 → Vec3 → Vec3
  scatterF : Ray → RaycastHit → Option ScatterResult

/-- `color` (src/render.rs, lines 27-43), with explicit recursion fuel;
`none` means the fuel ran out (never happens with fuel above
`10 - depth`, see the C4 theorem).  The world is intersected over
`[0.001, 2·10⁹]`; on a miss the source returns `Vec3::zero()` — the
`sky_color(r)` call next to it is commented out. -/
def colorFuel (mats : ℕ → MaterialM) (w : Hittable) :
    ℕ → Ray → ℕ → Option Vec3
  | 0, _, _ => none
  | fuel + 1, r, depth =>
    match w.hitAt r (1 / 1000) (2 * 10 ^ 9) with
    | some hit =>
      let emit := (mats hit.material).emitF hit.uv hit.point
      if depth < 10 then
        match (mats hit.material).scatterF r hit with
        | some result =>
          (colorFuel mats w fuel result.scattered (depth + 1)).map
            (fun c => emit.add (result.attenuation.mul c))
        | none => some emit
      else some emit
    | none => some Vec3.zero

/-- `SkyEnv` (src/environment.rs). -/
structure SkyEnv where
  zenith_color : Vec3
  horizon_color : Vec3

/-- `SkyEnv::sample` (src/environment.rs, `Environment` impl). -/
def SkyEnv.sample (e : SkyEnv) (dir : Vec3) : Vec3 :=
  let t := (1 / 2 : ℚ) * (dir.y + 1)
  (Vec3.smul (1 - t) e.horizon_color).add (Vec3.smul t e.zenith_color)

/-- `SkyEnv::default`: sky blue zenith, white horizon. -/
def skyEnvDefault : SkyEnv := ⟨⟨1/2, 7/10, 1⟩, ⟨1, 1, 1⟩⟩

/-- `ColorEnv::sample` (src/environment.rs): constant color. -/
def ColorEnv.sample (color : Vec3) (_dir : Vec3) : Vec3 := color

/-! ## Concrete fixtures used by witnesses and counterexamples -/

/-- A hittable that never hits, with a unit box. -/
def hitNone : Hittable :=
  ⟨fun _ _ _ => none, some ⟨⟨0, 0, 0⟩, ⟨1, 1, 1⟩⟩⟩

/-- A hittable hitting everything at the interval's lower bound. -/
def hitAlways : Hittable :=
  ⟨fun _ tmin _ => some ⟨tmin, Vec3.zero, Vec3.unit_y, 0, ⟨0, 0⟩⟩, none⟩

/-- Box `[0,10]³`: `min.x = 0`, center x = 5. -/
def hitBoxWide : Hittable :=
  ⟨fun _ _ _ => none, some ⟨⟨0, 0, 0⟩, ⟨10, 10, 10⟩⟩⟩

/-- Box `[1,4]³`: `min.x = 1`, center x = 2.5. -/
def hitBoxThin : Hittable :=
  ⟨fun _ _ _ => none, some ⟨⟨1, 1, 1⟩, ⟨4, 4, 4⟩⟩⟩

/-- Box `[-9,-8]³`, a third element for the split witness. -/
def hitBoxFar : Hittable :=
  ⟨fun _ _ _ => none, some ⟨⟨-9, -9, -9⟩, ⟨-8, -8, -8⟩⟩⟩

/-- A material that never scatters and emits `(5,5,5)`. -/
def matNone : MaterialM := ⟨fun _ _ => ⟨5, 5, 5⟩, fun _ _ => none⟩

/-- A material that always scatters straight +z with attenuation one. -/
def matScat : MaterialM :=
  ⟨fun _ _ => Vec3.zero, fun _ hit => some ⟨Vec3.one, ⟨hit.point, ⟨0, 0, 1⟩⟩⟩⟩

/-- Material tables for the integrator fixtures. -/
def matsNone : ℕ → MaterialM := fun _ => matNone

def matsScat : ℕ → MaterialM := fun _ => matScat

/-- An oracle with concrete (arbitrary) values, used only to instantiate
witnesses; `sqrt` and `log10` are the identity, `atan2` and `asin` are
zero, `pi` is 2. -/
def ops1 : RealOps := ⟨id, fun _ _ => 0, fun _ => 0, id, 2⟩

/-- A hittable that hits only rays with direction `z = 5`, at the lower
interval bound. -/
def hitSel : Hittable :=
  ⟨fun r tmin _ =>
    if r.dir.z = 5 then some ⟨tmin, Vec3.zero, Vec3.unit_y, 0, ⟨0, 0⟩⟩
    else none, none⟩

/-- A hittable behaving like a slab: entering far probes report `t = -1`,
later probes report `t = 4`. -/
def hitSlabFixture : Hittable :=
  ⟨fun _ tmin _ =>
    some ⟨if tmin ≤ -3 then -1 else 4, Vec3.zero, Vec3.unit_y, 0, ⟨0, 0⟩⟩,
   none⟩

/-- One triangle in the plane `z = 3` containing the z-axis. -/
def triMeshFixture : TriangleMesh :=
  ⟨[0, 1, 2], [⟨-1, -1, 3⟩, ⟨1, -1, 3⟩, ⟨0, 2, 3⟩], none, none, 0⟩

/-- The source's `Disk` of radius 2 as a hittable: `Disk::hit` together
with the box `Disk::bounding_box` actually returns —
`min = (-2, 0, 2)`, `max = (-2, 0.001, 2)` (src/objects/disk.rs:85-90),
whose x-span (and z-span) is empty. -/
def diskHittable : Hittable :=
  ⟨fun r tmin tmax => Disk.hit ops1 2 7 0 0 r tmin tmax,
   some ⟨⟨-2, 0, 2⟩, ⟨-2, 1 / 1000, 2⟩⟩⟩

/-- A well-behaved hittable: it reports a hit (at the interval's lower
bound) exactly when its own box passes the slab test, so its hits always
lie inside its bounding box and survive interval widening. -/
def hitInBox : Hittable :=
  ⟨fun r tmin tmax =>
    if AABB.hit ⟨⟨-5, -5, -5⟩, ⟨5, 5, 5⟩⟩ r tmin tmax then
      some ⟨tmin, r.point tmin, Vec3.unit_y, 0, ⟨0, 0⟩⟩
    else none,
   some ⟨⟨-5, -5, -5⟩, ⟨5, 5, 5⟩⟩⟩

/-! ## END OF DEFINITIONS — lemmas and theorems follow -/

/-- C8. For every pair of points `p`, `q` (in any order), the box returned by
`AABB::from_two_points` satisfies `min ≤ max` componentwise. -/
theorem from_two_points_min_le_max (p q : Vec3) :
    (AABB.from_two_points p q).min.le (AABB.from_two_points p q).max := by
  refine ⟨?_, ?_, ?_⟩ <;>
    simp [AABB.from_two_points, Vec3.min_by_component, Vec3.max_by_component,
      Vec3.le]

/-! ## Slab-test monotonicity under box enlargement -/

lemma slab1_mono {mnI mxI mnO mxO o dr tminI tmaxI tminO tmaxO a b : ℚ}
    (hmn : mnO ≤ mnI) (hmx : mxI ≤ mxO)
    (htmin : tminO ≤ tminI) (htmax : tmaxI ≤ tmaxO)
    (h : AABB.slab1 mnI mxI o dr tminI tmaxI = some (a, b)) :
    ∃ a' b', AABB.slab1 mnO mxO o dr tminO tmaxO = some (a', b') ∧
      a' ≤ a ∧ b ≤ b' := by
  unfold AABB.slab1 at h ⊢
  set inv := 1 / dr with hinv
  by_cases hneg : inv < 0
  · simp only [hneg, if_true] at h ⊢
    have h1 : (mxO - o) * inv ≤ (mxI - o) * inv :=
      mul_le_mul_of_nonpos_right (by linarith) (le_of_lt hneg)
    have h2 : (mnI - o) * inv ≤ (mnO - o) * inv :=
      mul_le_mul_of_nonpos_right (by linarith) (le_of_lt hneg)
    split at h
    · rename_i hcmp
      injection h with h'
      injection h' with ha hb
      subst ha; subst hb
      have hA : Max.max tminO ((mxO - o) * inv) ≤ Max.max tminI ((mxI - o) * inv) :=
        max_le_max htmin h1
      have hB : Min.min tmaxI ((mnI - o) * inv) ≤ Min.min tmaxO ((mnO - o) * inv) :=
        min_le_min htmax h2
      refine ⟨_, _, ?_, hA, hB⟩
      rw [if_pos (lt_of_le_of_lt hA (lt_of_lt_of_le hcmp hB))]
    · exact absurd h (by simp)
  · simp only [hneg, if_false] at h ⊢
    have hnn : 0 ≤ inv := le_of_not_lt hneg
    have h1 : (mnO - o) * inv ≤ (mnI - o) * inv :=
      mul_le_mul_of_nonneg_right (by linarith) hnn
    have h2 : (mxI - o) * inv ≤ (mxO - o) * inv :=
      mul_le_mul_of_nonneg_right (by linarith) hnn
    split at h
    · rename_i hcmp
      injection h with h'
      injection h' with ha hb
      subst ha; subst hb
      have hA : Max.max tminO ((mnO - o) * inv) ≤ Max.max tminI ((mnI - o) * inv) :=
        max_le_max htmin h1
      have hB : Min.min tmaxI ((mxI - o) * inv) ≤ Min.min tmaxO ((mxO - o) * inv) :=
        min_le_min htmax h2
      refine ⟨_, _, ?_, hA, hB⟩
      rw [if_pos (lt_of_le_of_lt hA (lt_of_lt_of_le hcmp hB))]
    · exact absurd h (by simp)

/-- Enlarging the box preserves a passing slab test. -/
lemma aabbHit_mono {bi bo : AABB} (hle : AABB.boxLE bi bo) {r : Ray}
    {tmin tmax : ℚ} (h : bi.hit r tmin tmax = true) :
    bo.hit r tmin tmax = true := by
  obtain ⟨⟨hx1, hy1, hz1⟩, hx2, hy2, hz2⟩ := hle
  unfold AABB.hit at h ⊢
  cases hX : AABB.slab1 bi.min.x bi.max.x r.origin.x r.dir.x tmin tmax with
  | none => rw [hX] at h; simp at h
  | some p =>
    obtain ⟨a1, b1⟩ := p
    rw [hX] at h
    dsimp only at h
    obtain ⟨a1', b1', hX', ha1, hb1⟩ := slab1_mono hx1 hx2 le_rfl le_rfl hX
    rw [hX']
    dsimp only
    cases hY : AABB.slab1 bi.min.y bi.max.y r.origin.y r.dir.y a1 b1 with
    | none => rw [hY] at h; simp at h
    | some q =>
      obtain ⟨a2, b2⟩ := q
      rw [hY] at h
      dsimp only at h
      obtain ⟨a2', b2', hY', ha2, hb2⟩ := slab1_mono hy1 hy2 ha1 hb1 hY
      rw [hY']
      dsimp only
      cases hZ : AABB.slab1 bi.min.z bi.max.z r.origin.z r.dir.z a2 b2 with
      | none => rw [hZ] at h; simp at h
      | some s =>
        obtain ⟨a3, b3⟩ := s
        obtain ⟨a3', b3', hZ', _, _⟩ := slab1_mono hz1 hz2 ha2 hb2 hZ
        rw [hZ', Option.isSome_some]

/-- Widening the query interval's upper bound preserves a passing slab
test. -/
lemma aabbHit_widen {bb : AABB} {r : Ray} {tmin tmax tmax' : ℚ}
    (hle : tmax ≤ tmax') (h : bb.hit r tmin tmax = true) :
    bb.hit r tmin tmax' = true := by
  unfold AABB.hit at h ⊢
  cases hX : AABB.slab1 bb.min.x bb.max.x r.origin.x r.dir.x tmin tmax with
  | none => rw [hX] at h; simp at h
  | some p =>
    obtain ⟨a1, b1⟩ := p
    rw [hX] at h
    dsimp only at h
    obtain ⟨a1', b1', hX', ha1, hb1⟩ :=
      slab1_mono le_rfl le_rfl le_rfl hle hX
    rw [hX']
    dsimp only
    cases hY : AABB.slab1 bb.min.y bb.max.y r.origin.y r.dir.y a1 b1 with
    | none => rw [hY] at h; simp at h
    | some q =>
      obtain ⟨a2, b2⟩ := q
      rw [hY] at h
      dsimp only at h
      obtain ⟨a2', b2', hY', ha2, hb2⟩ := slab1_mono le_rfl le_rfl ha1 hb1 hY
      rw [hY']
      dsimp only
      cases hZ : AABB.slab1 bb.min.z bb.max.z r.origin.z r.dir.z a2 b2 with
      | none => rw [hZ] at h; simp at h
      | some w =>
        obtain ⟨a3, b3⟩ := w
        obtain ⟨a3', b3', hZ', _, _⟩ := slab1_mono le_rfl le_rfl ha2 hb2 hZ
        rw [hZ', Option.isSome_some]

lemma boxLE_refl (a : AABB) : AABB.boxLE a a :=
  ⟨⟨le_rfl, le_rfl, le_rfl⟩, le_rfl, le_rfl, le_rfl⟩

lemma boxLE_trans {a b c : AABB} (h1 : AABB.boxLE a b) (h2 : AABB.boxLE b c) :
    AABB.boxLE a c := by
  obtain ⟨⟨p1, p2, p3⟩, q1, q2, q3⟩ := h1
  obtain ⟨⟨u1, u2, u3⟩, v1, v2, v3⟩ := h2
  exact ⟨⟨le_trans u1 p1, le_trans u2 p2, le_trans u3 p3⟩,
    le_trans q1 v1, le_trans q2 v2, le_trans q3 v3⟩

lemma boxLE_expand_left (a b : AABB) : AABB.boxLE a (AABB.expand a b) := by
  refine ⟨⟨?_, ?_, ?_⟩, ?_, ?_, ?_⟩ <;>
    simp [AABB.expand, Vec3.min_by_component, Vec3.max_by_component]

lemma boxLE_expand_right (a b : AABB) : AABB.boxLE b (AABB.expand a b) := by
  refine ⟨⟨?_, ?_, ?_⟩, ?_, ?_, ?_⟩ <;>
    simp [AABB.expand, Vec3.min_by_component, Vec3.max_by_component]

/-! ## Linear-scan lemmas -/

/-- Once the scan holds a hit, it returns a hit. -/
lemma scanAux_some_isSome (l : List Hittable) (r : Ray) (tmin c : ℚ)
    (h : RaycastHit) : (scanAux l r tmin c (some h)).isSome := by
  induction l generalizing c h with
  | nil => rfl
  | cons e rest ih =>
    unfold scanAux
    cases he : e.hitAt r tmin c with
    | none => exact ih c h
    | some h' => exact ih h'.t h'

/-- If some listed hittable hits over the full interval, the scan reports
a hit. -/
lemma scan_of_mem {l : List Hittable} {e : Hittable} (hmem : e ∈ l)
    {r : Ray} {tmin tmax : ℚ} (hhit : (e.hitAt r tmin tmax).isSome) :
    (scanAux l r tmin tmax none).isSome := by
  induction l with
  | nil => cases hmem
  | cons f rest ih =>
    unfold scanAux
    cases hf : f.hitAt r tmin tmax with
    | some h => exact scanAux_some_isSome rest r tmin h.t h
    | none =>
      rcases List.mem_cons.mp hmem with rfl | hmem'
      · rw [hf] at hhit; cases hhit
      · exact ih hmem'

/-- A hit reported by the scan comes from some listed hittable, probed with
an upper bound no larger than the query's. -/
lemma scan_exists {l : List Hittable} {r : Ray} {tmin c : ℚ}
    (h : (scanAux l r tmin c none).isSome) :
    ∃ e ∈ l, ∃ c', c' ≤ c ∧ (e.hitAt r tmin c').isSome := by
  induction l generalizing c with
  | nil => cases h
  | cons f rest ih =>
    unfold scanAux at h
    cases hf : f.hitAt r tmin c with
    | some hh => exact ⟨f, List.mem_cons_self f rest, c, le_rfl, by rw [hf]; rfl⟩
    | none =>
      rw [hf] at h
      obtain ⟨e, hmem, c', hc', he⟩ := ih h
      exact ⟨e, List.mem_cons_of_mem f hmem, c', hc', he⟩

/-! ## BVH traversal lemmas -/

/-- Every hit reported by BVH traversal is a hit of some leaf hittable,
probed over the same full interval. -/
lemma bvhHit_mem {t : BVHTree} {r : Ray} {tmin tmax : ℚ} {h : RaycastHit}
    (hh : bvhHit t r tmin tmax = some h) :
    ∃ e ∈ t.leavesOf, e.hitAt r tmin tmax = some h := by
  induction t with
  | leaf bb a =>
    unfold bvhHit at hh
    split at hh
    · exact ⟨a, by simp [BVHTree.leavesOf], hh⟩
    · cases hh
  | double bb a b =>
    unfold bvhHit at hh
    split at hh
    · cases ha : a.hitAt r tmin tmax with
      | none =>
        cases hb : b.hitAt r tmin tmax with
        | none => rw [ha, hb] at hh; cases hh
        | some rh =>
          rw [ha, hb] at hh
          dsimp only at hh
          exact ⟨b, by simp [BVHTree.leavesOf], by rw [hb, ← hh]⟩
      | some lh =>
        cases hb : b.hitAt r tmin tmax with
        | none =>
          rw [ha, hb] at hh
          dsimp only at hh
          exact ⟨a, by simp [BVHTree.leavesOf], by rw [ha, ← hh]⟩
        | some rh =>
          rw [ha, hb] at hh
          dsimp only at hh
          by_cases hcmp : lh.t < rh.t
          · rw [if_pos hcmp] at hh
            exact ⟨a, by simp [BVHTree.leavesOf], by rw [ha, ← hh]⟩
          · rw [if_neg hcmp] at hh
            exact ⟨b, by simp [BVHTree.leavesOf], by rw [hb, ← hh]⟩
    · cases hh
  | branch bb lt rt ihl ihr =>
    unfold bvhHit at hh
    split at hh
    · cases ha : bvhHit lt r tmin tmax with
      | none =>
        cases hb : bvhHit rt r tmin tmax with
        | none => rw [ha, hb] at hh; cases hh
        | some rh =>
          rw [ha, hb] at hh
          dsimp only at hh
          obtain ⟨e, hmem, he⟩ := ihr (by rw [hb, hh])
          exact ⟨e, by simp [BVHTree.leavesOf, hmem], he⟩
      | some lh =>
        cases hb : bvhHit rt r tmin tmax with
        | none =>
          rw [ha, hb] at hh
          dsimp only at hh
          obtain ⟨e, hmem, he⟩ := ihl (by rw [ha, hh])
          exact ⟨e, by simp [BVHTree.leavesOf, hmem], he⟩
        | some rh =>
          rw [ha, hb] at hh
          dsimp only at hh
          by_cases hcmp : lh.t < rh.t
          · rw [if_pos hcmp] at hh
            obtain ⟨e, hmem, he⟩ := ihl (by rw [ha, hh])
            exact ⟨e, by simp [BVHTree.leavesOf, hmem], he⟩
          · rw [if_neg hcmp] at hh
            obtain ⟨e, hmem, he⟩ := ihr (by rw [hb, hh])
            exact ⟨e, by simp [BVHTree.leavesOf, hmem], he⟩
    · cases hh

/-- In a well-formed tree, every leaf's box is present and contained in the
node's cached box. -/
lemma wf_leaf_box {t : BVHTree} (hwf : TreeWF t) {e : Hittable}
    (hmem : e ∈ t.leavesOf) :
    ∃ bb, e.box = some bb ∧ AABB.boxLE bb t.aabbOf := by
  induction t with
  | leaf bb a =>
    simp only [BVHTree.leavesOf, List.mem_singleton] at hmem
    subst hmem
    exact ⟨bb, hwf, boxLE_refl bb⟩
  | double bb a b =>
    obtain ⟨ba, bbx, hA, hB, rfl⟩ := hwf
    simp only [BVHTree.leavesOf, List.mem_cons, List.mem_singleton,
      List.not_mem_nil, or_false] at hmem
    rcases hmem with rfl | rfl
    · exact ⟨ba, hA, boxLE_expand_left ba bbx⟩
    · exact ⟨bbx, hB, boxLE_expand_right ba bbx⟩
  | branch bb lt rt ihl ihr =>
    obtain ⟨rfl, hwl, hwr⟩ := hwf
    simp only [BVHTree.leavesOf, List.mem_append] at hmem
    rcases hmem with hm | hm
    · obtain ⟨b, hb, hle⟩ := ihl hwl hm
      exact ⟨b, hb, boxLE_trans hle (boxLE_expand_left _ _)⟩
    · obtain ⟨b, hb, hle⟩ := ihr hwr hm
      exact ⟨b, hb, boxLE_trans hle (boxLE_expand_right _ _)⟩

/-- If a leaf hittable of a well-formed tree hits within the interval and
its own box passes the slab test, traversal reports a hit. -/
lemma bvhHit_of_leaf_hit {t : BVHTree} (hwf : TreeWF t) {e : Hittable}
    (hmem : e ∈ t.leavesOf) {r : Ray} {tmin tmax : ℚ}
    (hhit : (e.hitAt r tmin tmax).isSome) {eb : AABB}
    (hbox : e.box = some eb) (hpass : eb.hit r tmin tmax = true) :
    (bvhHit t r tmin tmax).isSome := by
  have htop : (t.aabbOf).hit r tmin tmax = true := by
    obtain ⟨bb, hb, hle⟩ := wf_leaf_box hwf hmem
    rw [hbox] at hb
    injection hb with hb
    subst hb
    exact aabbHit_mono hle hpass
  induction t with
  | leaf bb a =>
    simp only [BVHTree.leavesOf, List.mem_singleton] at hmem
    subst hmem
    unfold bvhHit
    rw [if_pos (by exact htop)]
    exact hhit
  | double bb a b =>
    simp only [BVHTree.leavesOf, List.mem_cons, List.mem_singleton,
      List.not_mem_nil, or_false] at hmem
    unfold bvhHit
    rw [if_pos (by exact htop)]
    rcases hmem with rfl | rfl
    · cases ha : e.hitAt r tmin tmax with
      | none => rw [ha] at hhit; cases hhit
      | some lh =>
        cases hb : b.hitAt r tmin tmax with
        | none => simp
        | some rh => dsimp only; split <;> simp
    · cases ha : a.hitAt r tmin tmax with
      | none =>
        cases hb : e.hitAt r tmin tmax with
        | none => rw [hb] at hhit; cases hhit
        | some rh => simp
      | some lh =>
        cases hb : e.hitAt r tmin tmax with
        | none => rw [hb] at hhit; cases hhit
        | some rh => dsimp only; split <;> simp
  | branch bb lt rt ihl ihr =>
    obtain ⟨hbb, hwl, hwr⟩ := hwf
    simp only [BVHTree.leavesOf, List.mem_append] at hmem
    unfold bvhHit
    rw [if_pos (by exact htop)]
    rcases hmem with hm | hm
    · have hsub : ((lt.aabbOf).hit r tmin tmax) = true := by
        obtain ⟨b, hb, hle⟩ := wf_leaf_box hwl hm
        rw [hbox] at hb
        injection hb with hb
        subst hb
        exact aabbHit_mono hle hpass
      have hl := ihl hwl hm hsub
      cases ha : bvhHit lt r tmin tmax with
      | none => rw [ha] at hl; cases hl
      | some lh =>
        cases hb : bvhHit rt r tmin tmax with
        | none => simp
        | some rh => dsimp only; split <;> simp
    · have hsub : ((rt.aabbOf).hit r tmin tmax) = true := by
        obtain ⟨b, hb, hle⟩ := wf_leaf_box hwr hm
        rw [hbox] at hb
        injection hb with hb
        subst hb
        exact aabbHit_mono hle hpass
      have hr := ihr hwr hm hsub
      cases ha : bvhHit lt r tmin tmax with
      | none =>
        cases hb : bvhHit rt r tmin tmax with
        | none => rw [hb] at hr; cases hr
        | some rh => simp
      | some lh =>
        cases hb : bvhHit rt r tmin tmax with
        | none => rw [hb] at hr; cases hr
        | some rh => dsimp only; split <;> simp

/-! ## Construction lemmas -/

lemma sortCode_perm (depth : ℕ) (l : List Hittable) :
    (sortCode depth l).Perm l :=
  List.perm_insertionSort (rCode depth) l

lemma sortSpec_perm (depth : ℕ) (l : List Hittable) :
    (sortSpec depth l).Perm l :=
  List.perm_insertionSort (rSpec depth) l

/-- The leaves of a built tree are a permutation of the input slice. -/
lemma buildFuel_ok_perm : ∀ (fuel : ℕ) (l : List Hittable) (depth : ℕ)
    (t : BVHTree), buildFuel fuel l depth = .ok t → t.leavesOf.Perm l := by
  intro fuel
  induction fuel with
  | zero => intro l d t h; simp [buildFuel] at h
  | succ fuel ih =>
    intro l d t h
    have hperm := sortCode_perm d l
    rw [buildFuel] at h
    split at h
    · cases h
    · split at h
      · rename_i hs
        rw [hs] at hperm
        have hl := List.perm_nil.mp hperm.symm
        subst hl
        exact ih _ _ _ h
      · rename_i a hs
        rw [hs] at hperm
        split at h
        · rename_i bb hbox
          injection h with h
          subst h
          simpa [BVHTree.leavesOf] using hperm
        · cases h
      · rename_i a b hs
        rw [hs] at hperm
        split at h
        · rename_i ba bbx hA hB
          injection h with h
          subst h
          simpa [BVHTree.leavesOf] using hperm
        · cases h
      · rename_i a b c rest hs
        rw [hs] at hperm
        dsimp only at h
        split at h
        · rename_i lt rt hlt hrt
          injection h with h
          subst h
          have h1 := ih _ _ _ hlt
          have h2 := ih _ _ _ hrt
          have h3 := List.Perm.append h1 h2
          rw [List.take_append_drop] at h3
          exact List.Perm.trans h3 hperm
        · cases h
        · cases h

/-- A built tree satisfies the cached-box invariant. -/
lemma buildFuel_ok_wf : ∀ (fuel : ℕ) (l : List Hittable) (depth : ℕ)
    (t : BVHTree), buildFuel fuel l depth = .ok t → TreeWF t := by
  intro fuel
  induction fuel with
  | zero => intro l d t h; simp [buildFuel] at h
  | succ fuel ih =>
    intro l d t h
    rw [buildFuel] at h
    split at h
    · cases h
    · split at h
      · exact ih _ _ _ h
      · split at h
        · rename_i bb hbox
          injection h with h
          subst h
          exact hbox
        · cases h
      · split at h
        · rename_i ba bbx hA hB
          injection h with h
          subst h
          exact ⟨ba, bbx, hA, hB, rfl⟩
        · cases h
      · dsimp only at h
        split at h
        · rename_i lt rt hlt hrt
          injection h with h
          subst h
          exact ⟨rfl, ih _ _ _ hlt, ih _ _ _ hrt⟩
        · cases h
        · cases h

/-- With every bounding box present, a nonempty slice builds successfully
whenever the fuel is at least the slice length (C10, positive part). -/
lemma buildFuel_isOk : ∀ (fuel : ℕ) (l : List Hittable) (depth : ℕ),
    l ≠ [] → (∀ e ∈ l, e.box.isSome) → l.length ≤ fuel →
    ∃ t, buildFuel fuel l depth = .ok t := by
  intro fuel
  induction fuel with
  | zero =>
    intro l d hne _ hlen
    exact absurd (List.length_eq_zero.mp (Nat.le_zero.mp hlen)) hne
  | succ fuel ih =>
    intro l d hne hbox hlen
    rw [buildFuel]
    rw [if_neg (by push_neg; intro _; exact hbox)]
    have hperm := sortCode_perm d l
    have hboxs : ∀ e ∈ sortCode d l, e.box.isSome := fun e he =>
      hbox e (hperm.mem_iff.mp he)
    have hlens : (sortCode d l).length = l.length := hperm.length_eq
    rcases hs : sortCode d l with _ | ⟨a, _ | ⟨b, _ | ⟨c, rest⟩⟩⟩
    · rw [hs] at hperm
      exact absurd (List.perm_nil.mp hperm.symm) hne
    · rw [hs] at hboxs
      obtain ⟨bb, hbb⟩ := Option.isSome_iff_exists.mp
        (hboxs a (List.mem_singleton_self a))
      dsimp only
      rw [hbb]
      exact ⟨_, rfl⟩
    · rw [hs] at hboxs
      obtain ⟨ba, hba⟩ := Option.isSome_iff_exists.mp (hboxs a (by simp))
      obtain ⟨bbv, hbbv⟩ := Option.isSome_iff_exists.mp (hboxs b (by simp))
      dsimp only
      rw [hba, hbbv]
      exact ⟨_, rfl⟩
    · rw [hs] at hboxs hlens
      have hmem : ∀ e ∈ (a :: b :: c :: rest), e.box.isSome := hboxs
      have hlentot : (a :: b :: c :: rest).length = l.length := hlens
      have hlenf : l.length ≤ fuel + 1 := hlen
      have hlen3 : 3 ≤ (a :: b :: c :: rest).length := by simp
      obtain ⟨lt, hlt⟩ := ih
        ((a :: b :: c :: rest).take ((a :: b :: c :: rest).length / 2)) (d + 1)
        (by
          intro hemp
          have h0 := congrArg List.length hemp
          rw [List.length_take] at h0
          simp only [List.length_nil] at h0
          omega)
        (fun e he => hmem e (List.mem_of_mem_take he))
        (by rw [List.length_take]; omega)
      obtain ⟨rt, hrt⟩ := ih
        ((a :: b :: c :: rest).drop ((a :: b :: c :: rest).length / 2)) (d + 1)
        (by
          intro hemp
          have h0 := congrArg List.length hemp
          rw [List.length_drop] at h0
          simp only [List.length_nil] at h0
          omega)
        (fun e he => hmem e (List.mem_of_mem_drop he))
        (by rw [List.length_drop]; omega)
      dsimp only
      rw [hlt, hrt]
      exact ⟨_, rfl⟩

/-- On the empty aggregate the construction never completes: the source
splits the empty slice into two empty halves and recurses forever, so the
model exhausts any amount of fuel. -/
lemma buildFuel_nil : ∀ (fuel depth : ℕ),
    buildFuel fuel [] depth = .error .fuelOut := by
  intro fuel
  induction fuel with
  | zero => intro d; rfl
  | succ fuel ih =>
    intro d
    rw [buildFuel]
    rw [if_neg (by simp)]
    have hs : sortCode d ([] : List Hittable) = [] := rfl
    rw [hs]
    exact ih (d + 1)

/-! ## C1: BVH traversal vs. linear scan -/

set_option maxHeartbeats 2000000 in
/-- C1 counterexample.  The source's `Disk` ships the degenerate bounding
box `min = (-2, 0, 2)`, `max = (-2, 0.001, 2)` (src/objects/disk.rs:85-90):
its x-span is empty, so the strict slab test (`tmax > tmin`) rejects every
ray.  On the one-disk list, the linear scan reports a genuine hit at
`t = 3` while BVH traversal of the tree built from the same list prunes at
the leaf box and reports a miss — refuting "BVH misses agree with linear
misses" at a source-realizable input.  (The ray's direction components are
all nonzero and every arithmetic step is exact in `f32`, so the rational
evaluation coincides with the source's.) -/
theorem bvh_disk_miss_counterexample :
    buildFuel 1 [diskHittable] 0 =
      .ok (BVHTree.leaf ⟨⟨-2, 0, 2⟩, ⟨-2, 1 / 1000, 2⟩⟩ diskHittable) ∧
    (hitableListHit [diskHittable] ⟨⟨1, 3, 1⟩, ⟨-1/2, -1, -1/2⟩⟩
      (1 / 1000) 10).isSome = true ∧
    bvhHit (BVHTree.leaf ⟨⟨-2, 0, 2⟩, ⟨-2, 1 / 1000, 2⟩⟩ diskHittable)
      ⟨⟨1, 3, 1⟩, ⟨-1/2, -1, -1/2⟩⟩ (1 / 1000) 10 = none := by
  refine ⟨rfl, ?_, ?_⟩
  · norm_num [hitableListHit, scanAux, diskHittable, Disk.hit, Disk.phiAt,
      ops1, Ray.point, Vec3.add, Vec3.smul]
  · have hx : AABB.slab1 (-2) (-2) 1 (-1/2) (1 / 1000) 10 = none := by
      norm_num [AABB.slab1]
    have hbox : AABB.hit ⟨⟨-2, 0, 2⟩, ⟨-2, 1 / 1000, 2⟩⟩
        ⟨⟨1, 3, 1⟩, ⟨-1/2, -1, -1/2⟩⟩ (1 / 1000) 10 = false := by
      unfold AABB.hit
      dsimp only
      rw [hx]
    unfold bvhHit
    rw [hbox]
    rfl

/-- C1 (amended).  For every list of hittables, every ray and every
interval: BVH traversal never reports a hit that the linear scan would not
also report — unconditionally, every BVH-reported hit is a hit of some
listed hittable over the same interval, so a BVH hit implies a scan hit.
The converse (BVH misses agree with linear misses) fails for hittables
like the source's `Disk`, whose degenerate flat bounding box fails the
strict slab test for every ray; it does hold whenever every member's
bounding box passes the slab test on each ray/interval on which the member
reports a hit (`HitBoxCorrect`) and members' hits survive widening of the
query interval (`HitWiden`). -/
theorem bvh_scan_agreement (l : List Hittable) (tree : BVHTree)
    (fuel : ℕ) (r : Ray) (tmin tmax : ℚ)
    (hbuild : buildFuel fuel l 0 = .ok tree) :
    ((bvhHit tree r tmin tmax).isSome →
      (hitableListHit l r tmin tmax).isSome) ∧
    (∀ h, bvhHit tree r tmin tmax = some h →
      ∃ e ∈ l, e.hitAt r tmin tmax = some h) ∧
    ((∀ e ∈ l, HitBoxCorrect e) → (∀ e ∈ l, HitWiden e) →
      (hitableListHit l r tmin tmax).isSome →
      (bvhHit tree r tmin tmax).isSome) := by
  have hperm := buildFuel_ok_perm fuel l 0 tree hbuild
  have hwf := buildFuel_ok_wf fuel l 0 tree hbuild
  refine ⟨?_, ?_, ?_⟩
  · intro hsome
    obtain ⟨h, hh⟩ := Option.isSome_iff_exists.mp hsome
    obtain ⟨e, hmem, he⟩ := bvhHit_mem hh
    have : (scanAux l r tmin tmax none).isSome :=
      scan_of_mem (hperm.mem_iff.mp hmem) (by rw [he]; rfl)
    exact this
  · intro h hh
    obtain ⟨e, hmem, he⟩ := bvhHit_mem hh
    exact ⟨e, hperm.mem_iff.mp hmem, he⟩
  · intro hbox hwiden hsome
    have hsome' : (scanAux l r tmin tmax none).isSome := hsome
    obtain ⟨e, hmem, c', hc', he⟩ := scan_exists hsome'
    have hfull : (e.hitAt r tmin tmax).isSome :=
      hwiden e hmem r tmin c' tmax hc' he
    obtain ⟨h, hh⟩ := Option.isSome_iff_exists.mp hfull
    obtain ⟨bb, hbb, hpass⟩ := hbox e hmem r tmin tmax h hh
    exact bvhHit_of_leaf_hit hwf (hperm.mem_iff.mpr hmem) hfull hbb hpass

/-! ## C2: the BVH partition step -/

/-- C2 counterexample.  At depth 0 the source orders by the box's `min.x`,
not by its center: with boxes `[0,10]³` (min 0, center 5) and `[1,4]³`
(min 1, center 2.5) the code keeps `[wide, thin]` while sorting on centers
as the claim states would give `[thin, wide]`. -/
theorem bvh_sort_center_counterexample :
    (sortCode 0 [hitBoxWide, hitBoxThin]).map Hittable.box ≠
      (sortSpec 0 [hitBoxWide, hitBoxThin]).map Hittable.box := by
  have h1 : (sortCode 0 [hitBoxWide, hitBoxThin]).map Hittable.box =
      [some ⟨⟨0, 0, 0⟩, ⟨10, 10, 10⟩⟩, some ⟨⟨1, 1, 1⟩, ⟨4, 4, 4⟩⟩] := rfl
  have h2 : (sortSpec 0 [hitBoxWide, hitBoxThin]).map Hittable.box =
      [some ⟨⟨1, 1, 1⟩, ⟨4, 4, 4⟩⟩, some ⟨⟨0, 0, 0⟩, ⟨10, 10, 10⟩⟩] := by
    norm_num [sortSpec, List.insertionSort, List.orderedInsert, rSpec,
      specSortKey, hitBoxWide, hitBoxThin, AABB.center, Vec3.smul, Vec3.add]
  rw [h1, h2]
  decide

/-- C2 (amended).  At depth `d` the slice is sorted on the *minimum corner*
of each bounding box, on axis x when `d % 3 = 0`, y when `d % 3 = 1`, and x
again when `d % 3 = 2` (the source's third arm compares `min.x`); the sort
permutes the slice, and a slice of three or more splits at `len / 2` into
the two child subtrees. -/
theorem bvh_partition_by_min_key (depth : ℕ) (l : List Hittable) :
    (sortCode depth l).Perm l ∧
    List.Sorted (rCode depth) (sortCode depth l) ∧
    (∀ fuel t, 3 ≤ l.length → buildFuel fuel l depth = .ok t →
      ∃ bb lt rt, t = .branch bb lt rt ∧
        lt.leavesOf.Perm ((sortCode depth l).take (l.length / 2)) ∧
        rt.leavesOf.Perm ((sortCode depth l).drop (l.length / 2))) := by
  refine ⟨sortCode_perm depth l, ?_, ?_⟩
  · haveI : IsTotal Hittable (rCode depth) := ⟨fun a b => le_total _ _⟩
    haveI : IsTrans Hittable (rCode depth) :=
      ⟨fun a b c hab hbc => le_trans hab hbc⟩
    exact List.sorted_insertionSort _ l
  · intro fuel t hlen hb
    have hperm := sortCode_perm depth l
    have hlength := hperm.length_eq
    cases fuel with
    | zero => simp [buildFuel] at hb
    | succ fuel =>
      rw [buildFuel] at hb
      split at hb
      · cases hb
      · split at hb
        · rename_i hs
          rw [hs] at hlength
          simp at hlength
          omega
        · rename_i a hs
          rw [hs] at hlength
          simp at hlength
          omega
        · rename_i a b hs
          rw [hs] at hlength
          simp at hlength
          omega
        · rename_i a b c rest hs
          rw [hs] at hlength
          dsimp only at hb
          split at hb
          · rename_i lt rt hlt hrt
            injection hb with hb
            refine ⟨_, lt, rt, hb.symm, ?_, ?_⟩
            · have := buildFuel_ok_perm fuel _ _ _ hlt
              rw [hs, ← hlength]
              exact this
            · have := buildFuel_ok_perm fuel _ _ _ hrt
              rw [hs, ← hlength]
              exact this
          · cases hb
          · cases hb

/-- C2 witness: the amended statement applied to a concrete three-element
list at depth 0 — the tree splits into the leaf holding the far box and a
double-leaf holding the other two, in code-key order. -/
theorem bvh_partition_by_min_key_witness :
    ∃ bb lt rt,
      (BVHTree.branch ⟨⟨-9, -9, -9⟩, ⟨10, 10, 10⟩⟩
        (.leaf ⟨⟨-9, -9, -9⟩, ⟨-8, -8, -8⟩⟩ hitBoxFar)
        (.double ⟨⟨0, 0, 0⟩, ⟨10, 10, 10⟩⟩ hitBoxWide hitBoxThin)) =
        BVHTree.branch bb lt rt ∧
      lt.leavesOf.Perm ((sortCode 0 [hitBoxWide, hitBoxThin, hitBoxFar]).take
        ([hitBoxWide, hitBoxThin, hitBoxFar].length / 2)) ∧
      rt.leavesOf.Perm ((sortCode 0 [hitBoxWide, hitBoxThin, hitBoxFar]).drop
        ([hitBoxWide, hitBoxThin, hitBoxFar].length / 2)) :=
  (bvh_partition_by_min_key 0 [hitBoxWide, hitBoxThin, hitBoxFar]).2.2 3 _
    (by decide) rfl

set_option maxHeartbeats 2000000 in
/-- C1 witness: the converse direction of the amended statement at a
concrete hitting list — `hitInBox` reports a genuine hit, its box-correct
and widening contracts are discharged non-vacuously, and the theorem
concludes that BVH traversal reports the hit too. -/
theorem bvh_scan_agreement_witness :
    (bvhHit (BVHTree.leaf ⟨⟨-5, -5, -5⟩, ⟨5, 5, 5⟩⟩ hitInBox)
      ⟨⟨0, 0, -3⟩, ⟨1, 1, 1⟩⟩ (1 / 1000) 5).isSome = true := by
  apply (bvh_scan_agreement [hitInBox]
    (BVHTree.leaf ⟨⟨-5, -5, -5⟩, ⟨5, 5, 5⟩⟩ hitInBox) 1
    ⟨⟨0, 0, -3⟩, ⟨1, 1, 1⟩⟩ (1 / 1000) 5 rfl).2.2
  · intro e he
    rw [List.mem_singleton] at he
    subst he
    intro r' t0 t1 h hc
    dsimp only [hitInBox] at hc
    split at hc
    · rename_i hcond
      exact ⟨_, rfl, hcond⟩
    · cases hc
  · intro e he
    rw [List.mem_singleton] at he
    subst he
    intro r' a t t' hle hs
    dsimp only [hitInBox] at hs ⊢
    split at hs
    · rename_i hcond
      rw [if_pos (aabbHit_widen hle hcond)]
      rfl
    · cases hs
  · have hs1 : AABB.slab1 (-5) 5 0 1 (1 / 1000) 5 =
        some (1 / 1000, 5) := by
      norm_num [AABB.slab1]
    have hs2 : AABB.slab1 (-5) 5 (-3) 1 (1 / 1000) 5 =
        some (1 / 1000, 5) := by
      norm_num [AABB.slab1]
    have hbox : AABB.hit ⟨⟨-5, -5, -5⟩, ⟨5, 5, 5⟩⟩
        ⟨⟨0, 0, -3⟩, ⟨1, 1, 1⟩⟩ (1 / 1000) 5 = true := by
      unfold AABB.hit
      dsimp only
      rw [hs1]
      dsimp only
      rw [hs1]
      dsimp only
      rw [hs2, Option.isSome_some]
    have hhit : hitInBox.hitAt ⟨⟨0, 0, -3⟩, ⟨1, 1, 1⟩⟩ (1 / 1000) 5 =
        some ⟨1 / 1000, Ray.point ⟨⟨0, 0, -3⟩, ⟨1, 1, 1⟩⟩ (1 / 1000),
          Vec3.unit_y, 0, ⟨0, 0⟩⟩ := by
      dsimp only [hitInBox]
      rw [if_pos hbox]
    have : (scanAux [hitInBox] ⟨⟨0, 0, -3⟩, ⟨1, 1, 1⟩⟩ (1 / 1000) 5
        none).isSome = true := by
      unfold scanAux
      rw [hhit]
      rfl
    exact this

/-! ## C10: construction success and the empty-list divergence -/

/-- C10 counterexample.  On the empty hittable list every `expect`
trivially succeeds, yet construction never completes: the source splits
the empty slice at `len/2 = 0` into two empty halves and recurses forever,
so even a fuel of one million is exhausted. -/
theorem bvh_build_empty_diverges :
    buildFuel 1000000 ([] : List Hittable) 0 = .error .fuelOut :=
  buildFuel_nil 1000000 0

/-- C10 (amended).  For every *nonempty* list all of whose members return
`Some` from `bounding_box()`, every `expect` in `BVHNode::new` succeeds and
construction completes without panicking (float comparability is automatic
in the exact-rational model, where no NaN exists). -/
theorem bvh_build_nonempty_completes (l : List Hittable)
    (h1 : l ≠ []) (h2 : ∀ e ∈ l, e.box.isSome) :
    ∃ t, bvhNew l = .ok t :=
  buildFuel_isOk l.length l 0 h1 h2 le_rfl

/-- C10 witness: a singleton list with a present box builds successfully. -/
theorem bvh_build_nonempty_completes_witness :
    ∃ t, bvhNew [hitNone] = .ok t :=
  bvh_build_nonempty_completes [hitNone] (by simp)
    (by
      intro e he
      rw [List.mem_singleton] at he
      subst he
      rfl)

/-! ## C5: the constant-medium intersection -/

/-- C5.  `ConstantMedium::hit` implements exactly the claimed procedure:
with a nonnegative sampled scattering distance (density `ρ > 0` and
`U ∈ (0,1]` make `-(1/ρ)·log10 U ≥ 0`) and a positive direction magnitude,
performing the miss test `t1 ≥ t2` after all three clamps (as the claim
words it) yields the same result as the source, which tests before the
final `max(t1, 0)` clamp. -/
theorem constant_medium_hit_matches_spec (ops : RealOps) (obj : Hittable)
    (density : ℚ) (material : ℕ) (u : ℚ) (r : Ray) (t_min t_max : ℚ)
    (hd : 0 ≤ -(1 / density) * ops.log10 u)
    (hmag : 0 < ops.sqrt (r.dir.dot r.dir)) :
    ConstantMedium.hit ops obj density material u r t_min t_max =
      ConstantMedium.hitSpec ops obj density material u r t_min t_max := by
  unfold ConstantMedium.hit ConstantMedium.hitSpec
  cases h1 : obj.hitAt r (-f32_max) f32_max with
  | none => rfl
  | some rec1 =>
    dsimp only
    cases h2 : obj.hitAt r (rec1.t + 1 / 10000) f32_max with
    | none => rfl
    | some rec2 =>
      dsimp only
      by_cases hAB : Max.max rec1.t t_min ≥ Min.min rec2.t t_max
      · rw [if_pos hAB,
          if_pos (le_trans hAB (le_max_left (Max.max rec1.t t_min) 0))]
      · rw [if_neg hAB]
        push_neg at hAB
        by_cases hA0 :
            Max.max (Max.max rec1.t t_min) 0 ≥ Min.min rec2.t t_max
        · rw [if_pos hA0]
          have hdist :
              (Min.min rec2.t t_max - Max.max (Max.max rec1.t t_min) 0) *
                ops.sqrt (r.dir.dot r.dir) ≤ 0 := by
            apply mul_nonpos_iff.mpr
            right
            exact ⟨by linarith, le_of_lt hmag⟩
          rw [if_neg (not_lt.mpr (le_trans hdist hd))]
        · rw [if_neg hA0]

/-- C5 witness: the equality at a concrete medium, ray, and draw. -/
theorem constant_medium_hit_matches_spec_witness :
    ConstantMedium.hit ops1 hitAlways 1 0 0 ⟨⟨0, 0, 0⟩, ⟨0, 0, 1⟩⟩
        (1 / 1000) 5 =
      ConstantMedium.hitSpec ops1 hitAlways 1 0 0 ⟨⟨0, 0, 0⟩, ⟨0, 0, 1⟩⟩
        (1 / 1000) 5 :=
  constant_medium_hit_matches_spec ops1 hitAlways 1 0 0
    ⟨⟨0, 0, 0⟩, ⟨0, 0, 1⟩⟩ (1 / 1000) 5 (by norm_num [ops1])
    (by norm_num [ops1, Vec3.dot])

/-! ## C7: the dielectric never absorbs -/

/-- C7.  For every oracle, refractive index, random draw, incoming ray and
hit record, `DielectricMat::scatter` returns `Some`, and the attenuation is
exactly `(1,1,1)` whether the scattered ray is the reflection or the
refraction. -/
theorem dielectric_scatter_some_unit_attenuation (ops : RealOps)
    (ref_idx u : ℚ) (r_in : Ray) (hit : RaycastHit) :
    (DielectricMat.scatter ops ref_idx u r_in hit).map
      ScatterResult.attenuation = some Vec3.one := by
  unfold DielectricMat.scatter
  dsimp only
  repeat' split
  all_goals rfl

/-! ## C6: TriangleMesh construction checks -/

/-- C6 counterexample.  `TriangleMesh::new` accepts an index array of
length 1, which violates `len(indices) % 3 == 0`: the source never checks
the index count. -/
theorem mesh_new_indices_counterexample :
    TriangleMesh.new [] [0] none none 0 = .ok ⟨[0], [], none, none, 0⟩ ∧
    [0].length % 3 ≠ 0 :=
  ⟨rfl, by decide⟩

/-- C6 (amended).  `TriangleMesh::new` returns `Err` exactly when a
*present* normals array or a *present* uvs array has a length different
from the vertex count; the `len(indices) % 3 == 0` invariant is not
checked. -/
theorem mesh_new_rejects_exactly_length_mismatch (verts : List Vec3)
    (indicies : List ℕ) (normals : Option (List Vec3))
    (uvs : Option (List Vec2)) (material : ℕ) :
    (∃ e, TriangleMesh.new verts indicies normals uvs material =
      .error e) ↔
    (normalsLenMismatch normals verts.length = true ∨
      uvsLenMismatch uvs verts.length = true) := by
  unfold TriangleMesh.new
  by_cases h1 : normalsLenMismatch normals verts.length = true
  · simp [h1]
  · by_cases h2 : uvsLenMismatch uvs verts.length = true
    · simp [h1, h2]
    · simp [h1, h2]

/-! ## C3: the miss branch of the integrator -/

/-- C3 counterexample.  On a ray that hits nothing, `color` returns
`Vec3::zero()`, not the environment's radiance at the normalized
direction: with the default sky environment the claim's value is
`(3/4, 17/20, 1)` while the code returns `(0,0,0)`. -/
theorem color_miss_counterexample :
    colorFuel matsNone hitNone 11 ⟨⟨0, 0, 0⟩, ⟨0, 0, 1⟩⟩ 0 =
      some Vec3.zero ∧
    SkyEnv.sample skyEnvDefault (Vec3.normalizedW ops1 ⟨0, 0, 1⟩) ≠
      Vec3.zero := by
  constructor
  · rfl
  · norm_num [SkyEnv.sample, skyEnvDefault, Vec3.normalizedW, Vec3.smul,
      Vec3.add, Vec3.dot, ops1, Vec3.zero]

/-- C3 (amended).  For every ray that hits no object of the world over
`[0.001, 2·10⁹]`, `color` returns `Vec3::zero()`; the environment is never
consulted (the `sky_color` call beside the return is commented out). -/
theorem color_miss_returns_zero (mats : ℕ → MaterialM) (w : Hittable)
    (fuel : ℕ) (r : Ray) (depth : ℕ)
    (hmiss : w.hitAt r (1 / 1000) (2 * 10 ^ 9) = none) :
    colorFuel mats w (fuel + 1) r depth = some Vec3.zero := by
  unfold colorFuel
  rw [hmiss]

/-- C3 witness: the amended statement at a concrete missing ray. -/
theorem color_miss_returns_zero_witness :
    colorFuel matsNone hitNone (10 + 1) ⟨⟨0, 0, 0⟩, ⟨0, 0, 1⟩⟩ 0 =
      some Vec3.zero :=
  color_miss_returns_zero matsNone hitNone 10 ⟨⟨0, 0, 0⟩, ⟨0, 0, 1⟩⟩ 0 rfl

/-! ## C4: the path-trace recurrence and its depth bound -/

/-- C4.  `color` intersects the world over `[0.001, 2·10⁹]`; on a hit it
computes `E = material.emit(hit.uv, hit.point)` and returns `E` when
`depth ≥ 10`, otherwise attempts `material.scatter`, returning
`E + attenuation ⊙ color(scattered, depth+1)` on success and `E` on
failure; recursion depth is bounded by 10: any fuel above `10 - depth`
suffices, so the function terminates on every input. -/
theorem color_recurrence_and_depth_bound (mats : ℕ → MaterialM)
    (w : Hittable) :
    (∀ fuel depth (r : Ray), 10 - depth < fuel →
      (colorFuel mats w fuel r depth).isSome) ∧
    (∀ fuel depth (r : Ray) hit,
      w.hitAt r (1 / 1000) (2 * 10 ^ 9) = some hit → 10 ≤ depth →
      colorFuel mats w (fuel + 1) r depth =
        some ((mats hit.material).emitF hit.uv hit.point)) ∧
    (∀ fuel depth (r : Ray) hit,
      w.hitAt r (1 / 1000) (2 * 10 ^ 9) = some hit → depth < 10 →
      (mats hit.material).scatterF r hit = none →
      colorFuel mats w (fuel + 1) r depth =
        some ((mats hit.material).emitF hit.uv hit.point)) ∧
    (∀ fuel depth (r : Ray) hit res c,
      w.hitAt r (1 / 1000) (2 * 10 ^ 9) = some hit → depth < 10 →
      (mats hit.material).scatterF r hit = some res →
      colorFuel mats w fuel res.scattered (depth + 1) = some c →
      colorFuel mats w (fuel + 1) r depth =
        some (((mats hit.material).emitF hit.uv hit.point).add
          (res.attenuation.mul c))) := by
  refine ⟨?_, ?_, ?_, ?_⟩
  · intro fuel
    induction fuel with
    | zero => intro depth r h; omega
    | succ fuel ih =>
      intro depth r h
      rw [colorFuel]
      cases hh : w.hitAt r (1 / 1000) (2 * 10 ^ 9) with
      | none => simp
      | some hit =>
        dsimp only
        by_cases hd : depth < 10
        · rw [if_pos hd]
          cases hs : (mats hit.material).scatterF r hit with
          | none => simp
          | some res =>
            dsimp only
            have hrec := ih (depth + 1) res.scattered (by omega)
            cases hc : colorFuel mats w fuel res.scattered (depth + 1) with
            | none => rw [hc] at hrec; cases hrec
            | some c => simp [hc]
        · rw [if_neg hd]
          simp
  · intro fuel depth r hit hh hd
    rw [colorFuel, hh]
    dsimp only
    rw [if_neg (by omega)]
  · intro fuel depth r hit hh hd hs
    rw [colorFuel, hh]
    dsimp only
    rw [if_pos hd, hs]
  · intro fuel depth r hit res c hh hd hs hc
    rw [colorFuel, hh]
    dsimp only
    rw [if_pos hd, hs]
    dsimp only
    rw [hc]
    rfl

/-- C4 witness: each branch of the recurrence exercised concretely — the
depth bound at depth 0 with fuel 11, the emit-only return at depth 10, the
scatter-failure return at depth 0, and one successful scatter step whose
recursive call misses. -/
theorem color_recurrence_and_depth_bound_witness :
    (colorFuel matsNone hitAlways 11 ⟨⟨0, 0, 0⟩, ⟨0, 0, 5⟩⟩ 0).isSome ∧
    (colorFuel matsNone hitAlways (0 + 1) ⟨⟨0, 0, 0⟩, ⟨0, 0, 5⟩⟩ 10 =
      some ((matsNone 0).emitF ⟨0, 0⟩ Vec3.zero)) ∧
    (colorFuel matsNone hitAlways (0 + 1) ⟨⟨0, 0, 0⟩, ⟨0, 0, 5⟩⟩ 0 =
      some ((matsNone 0).emitF ⟨0, 0⟩ Vec3.zero)) ∧
    (colorFuel matsScat hitSel (1 + 1) ⟨⟨0, 0, 0⟩, ⟨0, 0, 5⟩⟩ 0 =
      some (((matsScat 0).emitF ⟨0, 0⟩ Vec3.zero).add
        (Vec3.one.mul Vec3.zero))) := by
  refine ⟨?_, ?_, ?_, ?_⟩
  · exact (color_recurrence_and_depth_bound matsNone hitAlways).1 11 0
      ⟨⟨0, 0, 0⟩, ⟨0, 0, 5⟩⟩ (by omega)
  · exact (color_recurrence_and_depth_bound matsNone hitAlways).2.1 0 10
      ⟨⟨0, 0, 0⟩, ⟨0, 0, 5⟩⟩ ⟨1 / 1000, Vec3.zero, Vec3.unit_y, 0, ⟨0, 0⟩⟩
      rfl (by omega)
  · exact (color_recurrence_and_depth_bound matsNone hitAlways).2.2.1 0 0
      ⟨⟨0, 0, 0⟩, ⟨0, 0, 5⟩⟩ ⟨1 / 1000, Vec3.zero, Vec3.unit_y, 0, ⟨0, 0⟩⟩
      rfl (by omega) rfl
  · exact (color_recurrence_and_depth_bound matsScat hitSel).2.2.2 1 0
      ⟨⟨0, 0, 0⟩, ⟨0, 0, 5⟩⟩ ⟨1 / 1000, Vec3.zero, Vec3.unit_y, 0, ⟨0, 0⟩⟩
      ⟨Vec3.one, ⟨Vec3.zero, ⟨0, 0, 1⟩⟩⟩ Vec3.zero rfl (by omega) rfl rfl

/-! ## C9: reported hit parameters stay inside the query interval -/

lemma sphere_hit_t_range {ops : RealOps} {radius : ℚ} {material : ℕ}
    {r : Ray} {t_min t_max : ℚ} {h : RaycastHit}
    (hh : Sphere.hit ops radius material r t_min t_max = some h) :
    t_min ≤ h.t ∧ h.t ≤ t_max := by
  unfold Sphere.hit at hh
  dsimp only at hh
  split at hh
  · split at hh
    · rename_i t heq
      injection hh with hh
      subst hh
      split at heq
      · rename_i hcond
        injection heq with heq
        subst heq
        exact ⟨le_of_lt hcond.2, le_of_lt hcond.1⟩
      · split at heq
        · split at heq
          · rename_i hcond2
            injection heq with heq
            subst heq
            exact ⟨le_of_lt hcond2.2, le_of_lt hcond2.1⟩
          · cases heq
        · cases heq
    · cases hh
  · cases hh

lemma aarect_hit_t_range {a1 a2 : Axis} {rmin rmax : Vec2} {k : ℚ}
    {flip : Bool} {material : ℕ} {r : Ray} {t_min t_max : ℚ}
    {h : RaycastHit}
    (hh : AARect.hit a1 a2 rmin rmax k flip material r t_min t_max =
      some h) : t_min ≤ h.t ∧ h.t ≤ t_max := by
  unfold AARect.hit at hh
  dsimp only at hh
  split at hh
  · cases hh
  · rename_i hcond
    push_neg at hcond
    split at hh
    · cases hh
    · injection hh with hh
      subst hh
      exact hcond

lemma cylinder_check_t_range {ops : RealOps} {radius height max_phi : ℚ}
    {material : ℕ} {r : Ray} {t_min t_max t : ℚ} {h : RaycastHit}
    (heq : Cylinder.check_solution ops radius height max_phi material r
      t_min t_max t = some h) : t_min ≤ h.t ∧ h.t ≤ t_max := by
  unfold Cylinder.check_solution at heq
  dsimp only at heq
  split at heq
  · cases heq
  · rename_i hc
    push_neg at hc
    split at heq
    · injection heq with heq
      subst heq
      exact ⟨hc.2, hc.1⟩
    · cases heq

lemma cylinder_hit_t_range {ops : RealOps} {radius height max_phi : ℚ}
    {material : ℕ} {r : Ray} {t_min t_max : ℚ} {h : RaycastHit}
    (hh : Cylinder.hit ops radius height max_phi material r t_min t_max =
      some h) : t_min ≤ h.t ∧ h.t ≤ t_max := by
  unfold Cylinder.hit at hh
  dsimp only at hh
  split at hh
  · split at hh
    · rename_i t1 t2
      split at hh
      · rename_i h' heq
        injection hh with hh
        subst hh
        exact cylinder_check_t_range heq
      · split at hh
        · exact cylinder_check_t_range hh
        · cases hh
    · cases hh
  · cases hh

lemma disk_hit_t_range {ops : RealOps} {radius phi_max inner_radius : ℚ}
    {material : ℕ} {r : Ray} {t_min t_max : ℚ} {h : RaycastHit}
    (hh : Disk.hit ops radius phi_max inner_radius material r t_min t_max =
      some h) : t_min ≤ h.t ∧ h.t ≤ t_max := by
  unfold Disk.hit at hh
  dsimp only at hh
  split at hh
  · cases hh
  · split at hh
    · cases hh
    · rename_i hc
      push_neg at hc
      split at hh
      · cases hh
      · split at hh
        · cases hh
        · injection hh with hh
          subst hh
          exact hc

lemma triangle_finish_t_range {ops : RealOps} {mesh : TriangleMesh}
    {index : ℕ} {t_min t_max e0 e1 e2 p0tz p1tz p2tz : ℚ}
    {p0 p1 p2 : Vec3} {h : RaycastHit}
    (hh : Triangle.finish ops mesh index t_min t_max e0 e1 e2 p0tz p1tz
      p2tz p0 p1 p2 = some h) : t_min ≤ h.t ∧ h.t ≤ t_max := by
  unfold Triangle.finish at hh
  dsimp only at hh
  split at hh
  · cases hh
  · rename_i hdet
    split at hh
    · cases hh
    · rename_i hg1
      split at hh
      · cases hh
      · rename_i hg2
        injection hh with hh
        subst hh
        dsimp only
        push_neg at hg1 hg2
        rcases lt_trichotomy (e0 + e1 + e2) 0 with hlt | heq | hgt
        · obtain ⟨ha, hb⟩ := hg1 hlt
          constructor
          · rw [mul_one_div]
            exact le_of_lt ((lt_div_iff_of_neg hlt).mpr ha)
          · rw [mul_one_div]
            exact (div_le_iff_of_neg hlt).mpr hb
        · exact absurd heq hdet
        · obtain ⟨ha, hb⟩ := hg2 hgt
          constructor
          · rw [mul_one_div]
            exact le_of_lt ((lt_div_iff₀ hgt).mpr ha)
          · rw [mul_one_div]
            exact (div_le_iff₀ hgt).mpr hb

lemma triangle_hit_t_range {ops : RealOps} {mesh : TriangleMesh}
    {index : ℕ} {r : Ray} {t_min t_max : ℚ} {h : RaycastHit}
    (hh : Triangle.hit ops mesh index r t_min t_max = some h) :
    t_min ≤ h.t ∧ h.t ≤ t_max := by
  unfold Triangle.hit at hh
  dsimp only at hh
  split at hh
  · cases hh
  · exact triangle_finish_t_range hh

lemma constant_medium_hit_t_range {ops : RealOps} {obj : Hittable}
    {density : ℚ} {material : ℕ} {u : ℚ} {r : Ray} {t_min t_max : ℚ}
    {h : RaycastHit}
    (hd : 0 ≤ -(1 / density) * ops.log10 u)
    (hmag : 0 < ops.sqrt (r.dir.dot r.dir))
    (hh : ConstantMedium.hit ops obj density material u r t_min t_max =
      some h) : t_min ≤ h.t ∧ h.t ≤ t_max := by
  unfold ConstantMedium.hit at hh
  split at hh
  · cases hh
  · rename_i rec1 _
    try dsimp only at hh
    split at hh
    · cases hh
    · rename_i rec2 _
      try dsimp only at hh
      split at hh
      · cases hh
      · rename_i hc12
        push_neg at hc12
        split at hh
        · rename_i hdist
          injection hh with hh
          subst hh
          dsimp only
          have hdiv : 0 ≤ -(1 / density) * ops.log10 u /
              ops.sqrt (r.dir.dot r.dir) :=
            div_nonneg hd (le_of_lt hmag)
          constructor
          · have h1 : t_min ≤ Max.max (Max.max rec1.t t_min) 0 :=
              le_trans (le_max_right rec1.t t_min)
                (le_max_left (Max.max rec1.t t_min) 0)
            linarith
          · have h2 : -(1 / density) * ops.log10 u /
                ops.sqrt (r.dir.dot r.dir) <
                Min.min rec2.t t_max - Max.max (Max.max rec1.t t_min) 0 :=
              (div_lt_iff₀ hmag).mpr (by linarith)
            have h3 : Min.min rec2.t t_max ≤ t_max :=
              min_le_right rec2.t t_max
            linarith
        · cases hh

/-- C9.  For every primitive — Sphere, AARect, Cylinder, Triangle, Disk,
ConstantMedium — every ray, and every interval, a returned hit's parameter
satisfies `t_min ≤ t ≤ t_max`; for ConstantMedium (which probes its inner
shape over `(-MAX, MAX)`) this holds whenever the sampled scattering
distance is nonnegative (density `ρ > 0`, `U ∈ (0,1]`) and the direction
magnitude is positive. -/
theorem primitive_hit_t_within_interval :
    (∀ (ops : RealOps) (radius : ℚ) (material : ℕ) (r : Ray)
      (t_min t_max : ℚ) (h : RaycastHit),
      Sphere.hit ops radius material r t_min t_max = some h →
        t_min ≤ h.t ∧ h.t ≤ t_max) ∧
    (∀ (a1 a2 : Axis) (rmin rmax : Vec2) (k : ℚ) (flip : Bool)
      (material : ℕ) (r : Ray) (t_min t_max : ℚ) (h : RaycastHit),
      AARect.hit a1 a2 rmin rmax k flip material r t_min t_max = some h →
        t_min ≤ h.t ∧ h.t ≤ t_max) ∧
    (∀ (ops : RealOps) (radius height max_phi : ℚ) (material : ℕ) (r : Ray)
      (t_min t_max : ℚ) (h : RaycastHit),
      Cylinder.hit ops radius height max_phi material r t_min t_max =
        some h → t_min ≤ h.t ∧ h.t ≤ t_max) ∧
    (∀ (ops : RealOps) (mesh : TriangleMesh) (index : ℕ) (r : Ray)
      (t_min t_max : ℚ) (h : RaycastHit),
      Triangle.hit ops mesh index r t_min t_max = some h →
        t_min ≤ h.t ∧ h.t ≤ t_max) ∧
    (∀ (ops : RealOps) (radius phi_max inner_radius : ℚ) (material : ℕ)
      (r : Ray) (t_min t_max : ℚ) (h : RaycastHit),
      Disk.hit ops radius phi_max inner_radius material r t_min t_max =
        some h → t_min ≤ h.t ∧ h.t ≤ t_max) ∧
    (∀ (ops : RealOps) (obj : Hittable) (density : ℚ) (material : ℕ)
      (u : ℚ) (r : Ray) (t_min t_max : ℚ) (h : RaycastHit),
      0 ≤ -(1 / density) * ops.log10 u →
      0 < ops.sqrt (r.dir.dot r.dir) →
      ConstantMedium.hit ops obj density material u r t_min t_max =
        some h → t_min ≤ h.t ∧ h.t ≤ t_max) :=
  ⟨fun _ _ _ _ _ _ _ hh => sphere_hit_t_range hh,
   fun _ _ _ _ _ _ _ _ _ _ _ hh => aarect_hit_t_range hh,
   fun _ _ _ _ _ _ _ _ _ hh => cylinder_hit_t_range hh,
   fun _ _ _ _ _ _ _ hh => triangle_hit_t_range hh,
   fun _ _ _ _ _ _ _ _ _ hh => disk_hit_t_range hh,
   fun _ _ _ _ _ _ _ _ _ hd hmag hh =>
     constant_medium_hit_t_range hd hmag hh⟩

set_option maxHeartbeats 2000000 in
/-- C9 witness: one concrete accepted hit per primitive, each inside its
query interval. -/
theorem primitive_hit_t_within_interval_witness :
    ((1 / 1000 : ℚ) ≤ 1 ∧ (1 : ℚ) ≤ 5) ∧
    ((1 / 1000 : ℚ) ≤ 4 ∧ (4 : ℚ) ≤ 10) ∧
    ((1 / 1000 : ℚ) ≤ 1 ∧ (1 : ℚ) ≤ 10) ∧
    ((1 / 1000 : ℚ) ≤ 3 ∧ (3 : ℚ) ≤ 10) ∧
    ((1 / 1000 : ℚ) ≤ 3 ∧ (3 : ℚ) ≤ 10) ∧
    ((1 / 1000 : ℚ) ≤ 1 / 1000 ∧ (1 / 1000 : ℚ) ≤ 5) := by
  refine ⟨?_, ?_, ?_, ?_, ?_, ?_⟩
  · exact primitive_hit_t_within_interval.1 ops1 1 0 ⟨⟨0, 0, -3⟩, ⟨0, 0, 1⟩⟩
      (1 / 1000) 5 ⟨1, ⟨0, 0, -2⟩, ⟨0, 0, -2⟩, 0, ⟨1/2, 1/2⟩⟩
      (by norm_num [Sphere.hit, solve_quadratic, sphere_uv, ops1, Vec3.dot,
        Ray.point, Vec3.add, Vec3.smul])
  · exact primitive_hit_t_within_interval.2.1 .X .Y ⟨-1, -1⟩ ⟨1, 1⟩ 4 false
      0 ⟨⟨0, 0, 0⟩, ⟨0, 0, 1⟩⟩ (1 / 1000) 10 ⟨4, ⟨0, 0, 4⟩, ⟨0, 0, 1⟩, 0,
        ⟨1/2, 1/2⟩⟩
      (by norm_num [AARect.hit, Axis.other, Axis.unit_vec, Vec3.get,
        Ray.point, Vec3.add, Vec3.smul, Vec3.neg])
  · exact primitive_hit_t_within_interval.2.2.1 ops1 1 2 7 0
      ⟨⟨-3, 1, 0⟩, ⟨1, 0, 0⟩⟩ (1 / 1000) 10
      ⟨1, ⟨-2, 1, 0⟩, ⟨-2, 0, 0⟩, 0, ⟨0, 1/2⟩⟩
      (by norm_num [Cylinder.hit, Cylinder.check_solution, Cylinder.phiAt,
        solve_quadratic, ops1, Ray.point, Vec3.add, Vec3.smul])
  · exact primitive_hit_t_within_interval.2.2.2.1 ops1 triMeshFixture 0
      ⟨⟨0, 0, 0⟩, ⟨0, 0, 1⟩⟩ (1 / 1000) 10
      ⟨3, ⟨0, 0, 3⟩, ⟨0, 0, 6⟩, 0, ⟨1/3, 1/3⟩⟩
      (by norm_num [Triangle.hit, Triangle.finish, triMeshFixture,
        TriangleMesh.get_triangle_verts, TriangleMesh.get_triangle_normals,
        TriangleMesh.get_triangle_uvs, max_component_idx, Vec3.nth,
        Vec3.sub, Vec3.add, Vec3.smul, Vec3.cross, Vec2.add, Vec2.smul,
        ops1])
  · exact primitive_hit_t_within_interval.2.2.2.2.1 ops1 2 7 0 0
      ⟨⟨1, 3, 0⟩, ⟨0, -1, 0⟩⟩ (1 / 1000) 10
      ⟨3, ⟨1, 0, 0⟩, ⟨0, 1, 0⟩, 0, ⟨0, 1/2⟩⟩
      (by norm_num [Disk.hit, Disk.phiAt, ops1, Ray.point, Vec3.add,
        Vec3.smul])
  · exact primitive_hit_t_within_interval.2.2.2.2.2 ops1 hitSlabFixture 1 0
      0 ⟨⟨0, 0, 0⟩, ⟨0, 0, 1⟩⟩ (1 / 1000) 5
      ⟨1 / 1000, ⟨0, 0, 1/1000⟩, ⟨0, 1, 0⟩, 0, ⟨0, 0⟩⟩
      (by norm_num [ops1])
      (by norm_num [ops1, Vec3.dot])
      (by norm_num [ConstantMedium.hit, hitSlabFixture, ops1, f32_max,
        Ray.point, Vec3.add, Vec3.smul, Vec3.dot, Vec3.unit_y, Vec3.zero])

end Firework
